import Mathlib

/-!
Verification of the krader trading core against its specification.

This file gives a shallow embedding, in Lean 4, of the parts of the
krader repository that the checked properties concern:

* `krader/execution/order.py` — the `Order` data class and its state machine;
* `krader/execution/idempotency.py` — deterministic order-id generation;
* `krader/execution/oms.py` — `process_approved_signal` and `handle_fill`;
* `krader/risk/validator.py` — `RiskValidator.validate_signal` and its checks;
* `krader/risk/portfolio.py` — the portfolio tracker (`_on_fill`, `sync_with_broker`);
* `krader/recovery/reconciler.py` — startup reconciliation of orders;
* `krader/market/types.py`, `krader/market/candle.py` — ticks, candles, aggregation.

Modelling conventions:

* Python `Decimal` values (the code converts floats via `Decimal(str(x))` and
  performs exact decimal arithmetic) are modelled as `ℚ`.
* Python `int(...)` applied to a `Decimal` truncates toward zero; this is
  `pyInt` below.
* Python truthiness of an optional `Decimal` (`if price:`) is `pyDecTruthy`;
  truthiness of an optional string is `pyStrTruthy` (both `None` and the
  empty string/zero are falsy).
* Methods that raise exceptions are modelled as functions into
  `Except String _`; the store is left in whatever state committed writes
  had produced when the exception was raised.
* Wall-clock reads (`datetime.now()`) become explicit parameters; the
  `created_at` / `updated_at` bookkeeping timestamps on orders, which no
  checked property mentions, are omitted from the `Order` record.
* Database rows live in simple association lists keyed as the schema keys
  them (orders by `order_id`, positions by `symbol`); the OMS `_active_orders`
  in-memory map mirrors the non-terminal store content and is not modelled
  separately.
-/

namespace Krader

/-- Python `int()` applied to an exact decimal: truncation toward zero. -/
def pyInt (q : ℚ) : ℤ :=
  if 0 ≤ q then ⌊q⌋ else -⌊-q⌋

/-- Python truthiness of an optional decimal (`None` and `0` are falsy). -/
def pyDecTruthy : Option ℚ → Bool
  | none => false
  | some q => q ≠ 0

/-- Python truthiness of an optional string (`None` and `""` are falsy). -/
def pyStrTruthy : Option String → Bool
  | none => false
  | some s => s ≠ ""

/-! ## Order status and state machine (`krader/execution/order.py`) -/

/-- `OrderStatus` enumeration. -/
inductive OrderStatus where
  | pendingNew
  | submitted
  | partialFill
  | filled
  | canceled
  | rejected
  deriving DecidableEq, Repr

/-- The `.value` string of each enum member. -/
def OrderStatus.value : OrderStatus → String
  | .pendingNew => "PENDING_NEW"
  | .submitted => "SUBMITTED"
  | .partialFill => "PARTIAL_FILL"
  | .filled => "FILLED"
  | .canceled => "CANCELED"
  | .rejected => "REJECTED"

/-- `OrderStatus.is_terminal`. -/
def OrderStatus.isTerminal : OrderStatus → Bool
  | .filled => true
  | .canceled => true
  | .rejected => true
  | _ => false

/-- `OrderStatus.is_active`. -/
def OrderStatus.isActive : OrderStatus → Bool
  | .pendingNew => true
  | .submitted => true
  | .partialFill => true
  | _ => false

/-- The `VALID_TRANSITIONS` table: `validTransition a b` holds exactly when
`b ∈ VALID_TRANSITIONS[a]`. -/
def validTransition : OrderStatus → OrderStatus → Bool
  | .pendingNew, .submitted => true
  | .pendingNew, .rejected => true
  | .submitted, .partialFill => true
  | .submitted, .filled => true
  | .submitted, .canceled => true
  | .submitted, .rejected => true
  | .partialFill, .partialFill => true
  | .partialFill, .filled => true
  | .partialFill, .canceled => true
  | _, _ => false

/-- The `Order` dataclass.  `created_at`/`updated_at` are omitted (wall-clock
bookkeeping, unused by every checked property). -/
structure Order where
  order_id : String
  signal_id : String
  symbol : String
  side : String
  order_type : String
  quantity : ℤ
  price : Option ℚ := none
  broker_order_id : Option String := none
  filled_quantity : ℤ := 0
  status : OrderStatus := .pendingNew
  reject_reason : Option String := none
  deriving DecidableEq, Repr

/-- `Order.is_terminal`. -/
def Order.isTerminal (o : Order) : Bool := o.status.isTerminal

/-- `Order.is_active`. -/
def Order.isActive (o : Order) : Bool := o.status.isActive

/-- `Order.remaining_quantity`. -/
def Order.remainingQuantity (o : Order) : ℤ := o.quantity - o.filled_quantity

/-- `Order.can_transition_to`. -/
def Order.canTransitionTo (o : Order) (s : OrderStatus) : Bool :=
  validTransition o.status s

/-- `Order.transition_to`: raises `ValueError` on an invalid transition
(modelled as `Except.error` carrying the message), otherwise updates the
status in place. -/
def Order.transitionTo (o : Order) (s : OrderStatus) : Except String Order :=
  if o.canTransitionTo s then
    .ok { o with status := s }
  else
    .error ("Invalid transition: " ++ o.status.value ++ " -> " ++ s.value)

/-- `Order.apply_fill`: validates the quantity, adds it to `filled_quantity`,
then transitions to `FILLED` when complete, or from `SUBMITTED` to
`PARTIAL_FILL` otherwise.  In the source a failed terminal transition raises
after `filled_quantity` was already incremented; the raised path never
reaches a store write, so the error case carries no order. -/
def Order.applyFill (o : Order) (quantity : ℤ) : Except String Order :=
  if quantity ≤ 0 then
    .error "Fill quantity must be positive"
  else if quantity > o.remainingQuantity then
    .error ("Fill quantity " ++ toString quantity ++ " exceeds remaining "
      ++ toString o.remainingQuantity)
  else
    let o' := { o with filled_quantity := o.filled_quantity + quantity }
    if o'.quantity ≤ o'.filled_quantity then
      o'.transitionTo .filled
    else if o'.status = .submitted then
      o'.transitionTo .partialFill
    else
      .ok o'

/-- `Order.mark_rejected`: sets the reason and transitions to `REJECTED`. -/
def Order.markRejected (o : Order) (reason : String) : Except String Order :=
  Order.transitionTo { o with reject_reason := some reason } .rejected

/-- `Order.mark_canceled`. -/
def Order.markCanceled (o : Order) : Except String Order :=
  o.transitionTo .canceled

/-- `Order.mark_submitted`: records the broker order id and transitions to
`SUBMITTED`. -/
def Order.markSubmitted (o : Order) (brokerOrderId : String) : Except String Order :=
  Order.transitionTo { o with broker_order_id := some brokerOrderId } .submitted

/-! ## Signals and idempotent order identity
(`krader/execution/idempotency.py`, `krader/execution/oms.py`) -/

/-- Modelled from the spec: the module `krader/strategy/signal.py` defining
the `Signal` dataclass is imported throughout the source but absent from the
tree; §3 of the spec defines Signal as {signal_id (unique), strategy_name,
symbol, action ∈ {BUY,SELL,HOLD}, confidence ∈ [0,1], reason,
suggested_quantity (optional positive integer), metadata, timestamp}.
`timestamp` is kept as integer epoch seconds, which is exactly how the code
consumes it (`int(signal.timestamp.timestamp())`). -/
structure Signal where
  signal_id : String
  strategy_name : String
  symbol : String
  action : String
  confidence : ℚ
  reason : String
  suggested_quantity : Option ℤ := none
  timestamp : ℕ
  deriving Repr

/-- `generate_idempotency_key`: the source joins
`[signal_id, symbol, action, str(quantity), str(timestamp_bucket)]` with `|`,
where `timestamp_bucket = int(signal.timestamp.timestamp()) // bucket_seconds`,
and returns `"ORD-"` followed by the first 16 hex characters of the SHA-256
digest of that string.  The digest step is a fixed deterministic function of
the key string; we model the key by the preimage string itself, which
preserves exactly the determinism the properties rely on (equal components
give equal keys). -/
def generateIdempotencyKey (signal : Signal) (quantity : ℤ)
    (bucketSeconds : ℕ := 60) : String :=
  let timestampBucket := signal.timestamp / bucketSeconds
  "ORD-" ++ signal.signal_id ++ "|" ++ signal.symbol ++ "|" ++ signal.action
    ++ "|" ++ toString quantity ++ "|" ++ toString timestampBucket

/-- `generate_fill_id`. -/
def generateFillId (orderId : String) (fillSequence : ℕ) : String :=
  "FILL-" ++ orderId ++ "-" ++ toString fillSequence

/-- A persisted fill row (`fills` table). -/
structure FillRec where
  fill_id : String
  order_id : String
  quantity : ℤ
  price : ℚ
  broker_fill_id : Option String := none
  commission : Option ℚ := none
  deriving Repr

/-- The persistence store as the OMS sees it: the `orders` table (keyed by
`order_id`) and the `fills` table. -/
structure Store where
  orders : List Order
  fills : List FillRec
  deriving Repr

/-- `Repository.get_order`: lookup by `order_id`. -/
def Store.getOrder (st : Store) (orderId : String) : Option Order :=
  st.orders.find? (fun o => o.order_id = orderId)

/-- `Repository.get_order_by_broker_id` (and the OMS in-memory scan
`_find_order_by_broker_id`, which searches the same orders). -/
def Store.getOrderByBrokerId (st : Store) (brokerOrderId : String) : Option Order :=
  st.orders.find? (fun o => o.broker_order_id = some brokerOrderId)

/-- `Repository.get_open_orders`: all non-terminal orders. -/
def Store.getOpenOrders (st : Store) : List Order :=
  st.orders.filter (fun o => ¬ o.status.isTerminal)

/-- `Repository.get_fills_for_order`. -/
def Store.getFillsForOrder (st : Store) (orderId : String) : List FillRec :=
  st.fills.filter (fun f => f.order_id = orderId)

/-- `Repository.save_order`: INSERT of a new order row. -/
def Store.saveOrder (st : Store) (o : Order) : Store :=
  { st with orders := st.orders ++ [o] }

/-- `Repository.update_order`: UPDATE of the row with the same `order_id`. -/
def Store.updateOrder (st : Store) (o : Order) : Store :=
  { st with orders := st.orders.map (fun x => if x.order_id = o.order_id then o else x) }

/-- `Repository.save_fill`: INSERT of a fill row. -/
def Store.saveFill (st : Store) (f : FillRec) : Store :=
  { st with fills := st.fills ++ [f] }

/-- Outcome of `place_order` on the broker: a broker order id, an
`OrderRejectedError`, or another `BrokerError`. -/
inductive BrokerPlaceResult where
  | accepted (brokerOrderId : String)
  | orderRejected (message : String)
  | brokerError (message : String)
  deriving Repr

/-- Result of `OrderManagementSystem.process_approved_signal`: the returned
order (`None` when paused or HOLD), the store afterwards, and whether
`place_order` was invoked on the broker. -/
structure ProcessResult where
  returned : Option Order
  store : Store
  placeOrderCalled : Bool
  deriving Repr

/-- The tail of `OrderManagementSystem.process_approved_signal` once an order
id `key` has been settled on: build the `PENDING_NEW` order, persist it,
attempt `place_order`, mark submitted or rejected accordingly, and persist
the update.  Inputs that the source draws from ambient state are explicit
parameters: `placeResult` is what `self._broker.place_order` does.  Event
publications carry no state and are not modelled; the in-memory
`_active_orders` bookkeeping mirrors the store and is omitted.  The `Except`
is the exception channel; this path never raises in practice (the fresh order
is `PENDING_NEW`, from which both `SUBMITTED` and `REJECTED` are valid
transitions). -/
def submitNewOrder (st : Store) (signal : Signal) (approvedQuantity : ℤ)
    (price : Option ℚ) (key : String) (placeResult : BrokerPlaceResult) :
    Except String ProcessResult :=
  let order : Order :=
    { order_id := key
      signal_id := signal.signal_id
      symbol := signal.symbol
      side := signal.action
      order_type := if pyDecTruthy price then "LIMIT" else "MARKET"
      quantity := approvedQuantity
      price := price }
  let st := st.saveOrder order
  let afterPlace : Except String Order :=
    match placeResult with
    | .accepted brokerOrderId => order.markSubmitted brokerOrderId
    | .orderRejected e => order.markRejected e
    | .brokerError e => order.markRejected ("Broker error: " ++ e)
  match afterPlace with
  | .error e => .error e
  | .ok order' =>
    let st := st.updateOrder order'
    .ok ⟨some order', st, true⟩

/-- `OrderManagementSystem.process_approved_signal` proper: the pause and
HOLD gates, the idempotency lookup, and the in-flight / terminal-retry paths
around `submitNewOrder`. -/
def processApprovedSignal (st : Store) (signal : Signal) (approvedQuantity : ℤ)
    (price : Option ℚ) (paused : Bool) (randToken : String)
    (placeResult : BrokerPlaceResult) : Except String ProcessResult :=
  if paused then
    .ok ⟨none, st, false⟩
  else if signal.action = "HOLD" then
    .ok ⟨none, st, false⟩
  else
    let idempotencyKey := generateIdempotencyKey signal approvedQuantity
    match st.getOrder idempotencyKey with
    | some existing =>
        if ¬ existing.isTerminal then
          .ok ⟨some existing, st, false⟩
        else
          submitNewOrder st signal approvedQuantity price
            (idempotencyKey ++ "-" ++ randToken) placeResult
    | none =>
        submitNewOrder st signal approvedQuantity price idempotencyKey placeResult

/-- Outcome of `OrderManagementSystem.handle_fill`: the order was unknown
(warning logged, nothing changed), the fill was applied, or `apply_fill`
raised (the exception propagates — note the fill row was already saved). -/
inductive FillOutcome where
  | unknownOrder
  | applied (order : Order)
  | errored (message : String)
  deriving Repr

/-- `OrderManagementSystem.handle_fill`.  The source locates the order by
broker id, computes the fill sequence from the count of existing fill rows,
persists the fill row, and only then calls `order.apply_fill(quantity)`;
a `ValueError` from `apply_fill` therefore leaves the saved fill row in the
store while the order row is untouched.  Event publications are not
modelled. -/
def handleFill (st : Store) (brokerOrderId : String) (quantity : ℤ) (price : ℚ)
    (brokerFillId : Option String := none) (commission : Option ℚ := none) :
    FillOutcome × Store :=
  match st.getOrderByBrokerId brokerOrderId with
  | none => (.unknownOrder, st)
  | some order =>
    let fillSequence := (st.getFillsForOrder order.order_id).length + 1
    let fillId := generateFillId order.order_id fillSequence
    let st := st.saveFill
      { fill_id := fillId
        order_id := order.order_id
        quantity := quantity
        price := price
        broker_fill_id := brokerFillId
        commission := commission }
    match order.applyFill quantity with
    | .error e => (.errored e, st)
    | .ok order' => (.applied order', st.updateOrder order')

/-! ## Portfolio snapshot (`krader/risk/portfolio.py`) -/

/-- The `PortfolioPosition` dataclass. -/
structure PortfolioPosition where
  symbol : String
  quantity : ℤ
  avg_price : ℚ
  current_price : Option ℚ := none
  deriving DecidableEq, Repr

/-- `PortfolioPosition.market_value`: `current_price * quantity` when a price
is available. -/
def PortfolioPosition.marketValue (p : PortfolioPosition) : Option ℚ :=
  p.current_price.map (fun c => c * p.quantity)

/-- The in-memory `Portfolio`: the positions dict is modelled as the list of
its values (symbols are unique, which hypotheses state where it matters). -/
structure Portfolio where
  positions : List PortfolioPosition := []
  cash : ℚ := 0
  total_equity : ℚ := 0
  daily_pnl : ℚ := 0
  daily_start_equity : Option ℚ := none
  deriving Repr

/-- `Portfolio.total_position_value`: sum of the market values of positions
that have one. -/
def Portfolio.totalPositionValue (pf : Portfolio) : ℚ :=
  pf.positions.foldl
    (fun total p => match p.marketValue with
      | some v => total + v
      | none => total) 0

/-- `Portfolio.get_position`. -/
def Portfolio.getPosition (pf : Portfolio) (symbol : String) : Option PortfolioPosition :=
  pf.positions.find? (fun p => p.symbol = symbol)

/-- `Portfolio.get_position_quantity` (0 when there is no position). -/
def Portfolio.getPositionQuantity (pf : Portfolio) (symbol : String) : ℤ :=
  match pf.getPosition symbol with
  | some p => p.quantity
  | none => 0

/-! ## Risk validator (`krader/risk/validator.py`) -/

/-- `RiskConfig` (`krader/config.py`): the float-valued fields reach the
validator as `Decimal(str(x))`, modelled directly as `ℚ`. -/
structure RiskConfig where
  max_position_size : ℤ := 1000
  max_portfolio_exposure_pct : ℚ := 8 / 10
  daily_loss_limit : ℚ := 1000000
  trading_start_hour : ℕ := 9
  trading_start_minute : ℕ := 0
  trading_end_hour : ℕ := 15
  trading_end_minute : ℕ := 30
  transaction_cost_rate : ℚ := 15 / 100000
  max_trades_per_day : ℤ := 50
  position_size_pct : ℚ := 5 / 100
  deriving Repr

/-- `ValidationResult`. -/
structure ValidationResult where
  approved : Bool
  approved_quantity : ℤ
  reject_reason : Option String := none
  deriving DecidableEq, Repr

/-- `ValidationResult.accept`. -/
def ValidationResult.accept (quantity : ℤ) : ValidationResult :=
  { approved := true, approved_quantity := quantity }

/-- `ValidationResult.reject`. -/
def ValidationResult.reject (reason : String) : ValidationResult :=
  { approved := false, approved_quantity := 0, reject_reason := some reason }

/-- The fields of `StrategyContext` (`krader/strategy/base.py`) that the
validator reads. -/
structure StrategyContext where
  active_orders_count : ℤ := 0
  daily_trades_count : ℤ := 0
  is_market_open : Bool := true
  deriving Repr

/-- A wall-clock instant as `datetime.now()` presents it to
`_is_trading_hours`: a date index plus time-of-day fields.  `datetime`
comparison is lexicographic on the fields. -/
structure PyTime where
  day : ℕ
  hour : ℕ
  minute : ℕ
  second : ℕ := 0
  microsecond : ℕ := 0
  deriving DecidableEq, Repr

/-- `datetime` ordering (lexicographic on date then time fields). -/
def PyTime.le (a b : PyTime) : Bool :=
  if a.day ≠ b.day then decide (a.day < b.day)
  else if a.hour ≠ b.hour then decide (a.hour < b.hour)
  else if a.minute ≠ b.minute then decide (a.minute < b.minute)
  else if a.second ≠ b.second then decide (a.second < b.second)
  else decide (a.microsecond ≤ b.microsecond)

/-- `RiskValidator`: the configuration together with the latched kill-switch
boolean. -/
structure RiskValidator where
  config : RiskConfig
  kill_switch_active : Bool := false
  deriving Repr

/-- `RiskValidator.activate_kill_switch`. -/
def RiskValidator.activateKillSwitch (v : RiskValidator) : RiskValidator :=
  { v with kill_switch_active := true }

/-- `RiskValidator.deactivate_kill_switch`. -/
def RiskValidator.deactivateKillSwitch (v : RiskValidator) : RiskValidator :=
  { v with kill_switch_active := false }

/-- `RiskValidator._is_trading_hours`: `now` is compared against the same
instant with the hour/minute replaced by the configured start and end. -/
def RiskValidator.isTradingHours (cfg : RiskConfig) (now : PyTime) : Bool :=
  let startTime : PyTime :=
    { now with hour := cfg.trading_start_hour, minute := cfg.trading_start_minute
               second := 0, microsecond := 0 }
  let endTime : PyTime :=
    { now with hour := cfg.trading_end_hour, minute := cfg.trading_end_minute
               second := 0, microsecond := 0 }
  startTime.le now && now.le endTime

/-- `RiskValidator._calculate_position_size`. -/
def RiskValidator.calculatePositionSize (cfg : RiskConfig) (pf : Portfolio)
    (currentPrice : ℚ) : ℤ :=
  if currentPrice ≤ 0 ∨ pf.total_equity ≤ 0 then 0
  else
    let targetValue := pf.total_equity * cfg.position_size_pct
    let quantity := pyInt (targetValue / currentPrice)
    let quantity := min quantity cfg.max_position_size
    max 0 quantity

/-- The f-string of `_check_max_trades_per_day`'s rejection. -/
def maxTradesMessage (currentTrades maxTrades : ℤ) : String :=
  "Max trades per day reached (" ++ toString currentTrades ++ "/"
    ++ toString maxTrades ++ ")"

/-- `RiskValidator._check_max_trades_per_day`. -/
def RiskValidator.checkMaxTradesPerDay (cfg : RiskConfig)
    (context : StrategyContext) : ValidationResult :=
  if context.daily_trades_count ≥ cfg.max_trades_per_day then
    .reject (maxTradesMessage context.daily_trades_count cfg.max_trades_per_day)
  else
    .accept 999999

/-- `RiskValidator._estimated_transaction_cost`. -/
def RiskValidator.estimatedTransactionCost (cfg : RiskConfig) (quantity : ℤ)
    (currentPrice : ℚ) : ℚ :=
  currentPrice * quantity * cfg.transaction_cost_rate

/-- `RiskValidator._check_position_size`. -/
def RiskValidator.checkPositionSize (cfg : RiskConfig) (symbol : String)
    (action : String) (quantity : ℤ) (pf : Portfolio) : ValidationResult :=
  let currentQty := pf.getPositionQuantity symbol
  let resultingQty := if action = "BUY" then currentQty + quantity
                      else currentQty - quantity
  if cfg.max_position_size < |resultingQty| then
    let maxAllowed := cfg.max_position_size - |currentQty|
    if maxAllowed ≤ 0 then
      .reject ("Position size limit reached for " ++ symbol)
    else
      .accept maxAllowed
  else
    .accept quantity

/-- `RiskValidator._check_portfolio_exposure`. -/
def RiskValidator.checkPortfolioExposure (cfg : RiskConfig) (quantity : ℤ)
    (currentPrice : Option ℚ) (pf : Portfolio) : ValidationResult :=
  match currentPrice with
  | none => .accept quantity
  | some price =>
    if pf.total_equity ≤ 0 then .accept quantity
    else
      let orderValue := price * quantity
      let newExposure := (pf.totalPositionValue + orderValue) / pf.total_equity
      if cfg.max_portfolio_exposure_pct < newExposure then
        let maxAdditionalValue :=
          pf.total_equity * cfg.max_portfolio_exposure_pct - pf.totalPositionValue
        if maxAdditionalValue ≤ 0 then
          .reject "Portfolio exposure limit reached"
        else
          let maxQty := pyInt (maxAdditionalValue / price)
          if maxQty ≤ 0 then
            .reject "Portfolio exposure limit reached"
          else
            .accept maxQty
      else
        .accept quantity

/-- The f-string of `_check_available_cash`'s rejection.  The `:.0f` format
of the two decimals is not reproduced digit-for-digit; the static prefix
`"Insufficient cash"` is what the properties distinguish. -/
def insufficientCashMessage (needRepr haveRepr : String) : String :=
  "Insufficient cash (need " ++ needRepr ++ ", have " ++ haveRepr ++ ")"

/-- `RiskValidator._check_available_cash`. -/
def RiskValidator.checkAvailableCash (cfg : RiskConfig) (quantity : ℤ)
    (currentPrice : Option ℚ) (pf : Portfolio) : ValidationResult :=
  match currentPrice with
  | none => .accept quantity
  | some price =>
    let orderValue := price * quantity
    let estimatedFee := RiskValidator.estimatedTransactionCost cfg quantity price
    let totalCost := orderValue + estimatedFee
    if pf.cash < totalCost then
      let effectivePrice := price * (1 + cfg.transaction_cost_rate)
      let maxQty := pyInt (pf.cash / effectivePrice)
      if maxQty ≤ 0 then
        .reject (insufficientCashMessage (toString totalCost) (toString pf.cash))
      else
        .accept maxQty
    else
      .accept quantity

/-- `RiskValidator._check_daily_loss_limit`. -/
def RiskValidator.checkDailyLossLimit (cfg : RiskConfig) (pf : Portfolio) :
    ValidationResult :=
  if pf.daily_pnl < -cfg.daily_loss_limit then
    .reject "Daily loss limit exceeded"
  else
    .accept 999999

/-- `RiskValidator._max_buyable_quantity`. -/
def RiskValidator.maxBuyableQuantity (cfg : RiskConfig)
    (currentPrice : Option ℚ) (pf : Portfolio) : ℤ :=
  match currentPrice with
  | none => 0
  | some price =>
    if price ≤ 0 then 0
    else
      let effectivePrice := price * (1 + cfg.transaction_cost_rate)
      pyInt (pf.cash / effectivePrice)

/-- Steps 6–10 of `validate_signal` (position size, exposure, cash for BUY,
daily loss, final minimum), after the max-trades check. -/
def RiskValidator.validateSignalChecks (v : RiskValidator) (signal : Signal)
    (pf : Portfolio) (currentPrice : Option ℚ) (requestedQty : ℤ) :
    ValidationResult :=
  let positionResult :=
    RiskValidator.checkPositionSize v.config signal.symbol signal.action requestedQty pf
  if ¬ positionResult.approved then positionResult
  else
    let exposureResult :=
      RiskValidator.checkPortfolioExposure v.config requestedQty currentPrice pf
    if ¬ exposureResult.approved then exposureResult
    else
      let cashResult :=
        if signal.action = "BUY" then
          RiskValidator.checkAvailableCash v.config requestedQty currentPrice pf
        else
          .accept requestedQty
      if ¬ cashResult.approved then cashResult
      else
        let dailyLossResult := RiskValidator.checkDailyLossLimit v.config pf
        if ¬ dailyLossResult.approved then dailyLossResult
        else
          let finalQty := min (min requestedQty positionResult.approved_quantity)
            exposureResult.approved_quantity
          let finalQty :=
            if signal.action = "BUY" then
              min finalQty (RiskValidator.maxBuyableQuantity v.config currentPrice pf)
            else finalQty
          if finalQty ≤ 0 then
            .reject "Approved quantity is zero"
          else
            .accept finalQty

/-- `RiskValidator.validate_signal`; `now` is the `datetime.now()` read
inside `_is_trading_hours`. -/
def RiskValidator.validateSignal (v : RiskValidator) (signal : Signal)
    (pf : Portfolio) (currentPrice : Option ℚ)
    (context : Option StrategyContext) (now : PyTime) : ValidationResult :=
  if v.kill_switch_active then .reject "Kill switch is active"
  else if signal.action = "HOLD" then .reject "HOLD signals do not generate orders"
  else if ¬ RiskValidator.isTradingHours v.config now then
    .reject "Outside trading hours"
  else
    let suggestedMissing :=
      match signal.suggested_quantity with
      | none => true
      | some q => q ≤ 0
    let requested : Except ValidationResult ℤ :=
      if suggestedMissing then
        match currentPrice with
        | none => .error (.reject "Cannot calculate position size: no price available")
        | some p =>
          if p ≤ 0 then
            .error (.reject "Cannot calculate position size: no price available")
          else
            let calculatedQty := RiskValidator.calculatePositionSize v.config pf p
            if calculatedQty ≤ 0 then
              .error (.reject "Calculated position size is zero (insufficient equity)")
            else
              .ok calculatedQty
      else
        .ok (signal.suggested_quantity.getD 0)
    match requested with
    | .error r => r
    | .ok requestedQty =>
      match context with
      | some ctx =>
        let tradesResult := RiskValidator.checkMaxTradesPerDay v.config ctx
        if ¬ tradesResult.approved then tradesResult
        else v.validateSignalChecks signal pf currentPrice requestedQty
      | none => v.validateSignalChecks signal pf currentPrice requestedQty

/-! ## Portfolio tracker (`krader/risk/portfolio.py`) -/

/-- A broker `Position` (`krader/broker/base.py`). -/
structure BrokerPosition where
  symbol : String
  quantity : ℤ
  avg_price : ℚ
  current_price : Option ℚ := none
  unrealized_pnl : Option ℚ := none
  deriving Repr

/-- A broker `Balance` (`krader/broker/base.py`). -/
structure Balance where
  total_equity : ℚ
  available_cash : ℚ
  margin_used : ℚ := 0
  unrealized_pnl : ℚ := 0
  deriving Repr

/-- The `positions` table: rows of (symbol, quantity, avg_price), symbol
being the primary key. -/
structure PositionsStore where
  rows : List (String × ℤ × ℚ) := []
  deriving Repr

/-- `Repository.save_position`: upsert by symbol. -/
def PositionsStore.save (ps : PositionsStore) (symbol : String) (quantity : ℤ)
    (avgPrice : ℚ) : PositionsStore :=
  if ps.rows.any (fun r => r.1 = symbol) then
    { rows := ps.rows.map (fun r => if r.1 = symbol then (symbol, quantity, avgPrice) else r) }
  else
    { rows := ps.rows ++ [(symbol, quantity, avgPrice)] }

/-- `Repository.delete_position`. -/
def PositionsStore.delete (ps : PositionsStore) (symbol : String) : PositionsStore :=
  { rows := ps.rows.filter (fun r => r.1 ≠ symbol) }

/-- Dict assignment `portfolio.positions[p.symbol] = p` (covers both the
in-place mutation of an existing entry and insertion of a new one). -/
def Portfolio.setPosition (pf : Portfolio) (p : PortfolioPosition) : Portfolio :=
  if pf.positions.any (fun x => x.symbol = p.symbol) then
    { pf with positions := pf.positions.map (fun x => if x.symbol = p.symbol then p else x) }
  else
    { pf with positions := pf.positions ++ [p] }

/-- Dict deletion `del portfolio.positions[symbol]`. -/
def Portfolio.deletePosition (pf : Portfolio) (symbol : String) : Portfolio :=
  { pf with positions := pf.positions.filter (fun x => x.symbol ≠ symbol) }

/-- State owned by the `PortfolioTracker`: the in-memory portfolio and the
persisted positions table. -/
structure TrackerState where
  portfolio : Portfolio
  store : PositionsStore
  deriving Repr

/-- The tail of `PortfolioTracker._on_fill`: after the in-memory update,
persist the (still present) position for the symbol, if any. -/
def trackerPersist (ts : TrackerState) (pf' : Portfolio) (symbol : String) :
    TrackerState :=
  match pf'.getPosition symbol with
  | some pos =>
    { portfolio := pf', store := ts.store.save pos.symbol pos.quantity pos.avg_price }
  | none => { portfolio := pf', store := ts.store }

/-- `PortfolioTracker._on_fill`.  The source first loads the order row for
the fill's `order_id` from the repository; `orderInfo` is that lookup's
result, reduced to the `(symbol, side)` fields the handler reads.  A BUY
merges into or creates the position; a SELL decrements and, at zero or
below, deletes the position from memory and store and returns early;
a SELL with no position only logs.  Afterwards the (still present) position
is persisted via `trackerPersist`. -/
def trackerOnFill (ts : TrackerState) (orderInfo : Option (String × String))
    (quantity : ℤ) (price : ℚ) : TrackerState :=
  match orderInfo with
  | none => ts
  | some (symbol, side) =>
    let pf := ts.portfolio
    -- `none` here models the early `return` after delete-on-zero
    let updated : Option Portfolio :=
      if side = "BUY" then
        match pf.getPosition symbol with
        | some currentPos =>
          let newQty := currentPos.quantity + quantity
          let totalCost := currentPos.avg_price * currentPos.quantity + price * quantity
          some (pf.setPosition
            { currentPos with quantity := newQty, avg_price := totalCost / newQty })
        | none =>
          some (pf.setPosition { symbol := symbol, quantity := quantity, avg_price := price })
      else if side = "SELL" then
        match pf.getPosition symbol with
        | some currentPos =>
          if currentPos.quantity - quantity ≤ 0 then none
          else some (pf.setPosition { currentPos with quantity := currentPos.quantity - quantity })
        | none => some pf
      else some pf
    match updated with
    | none =>
      { portfolio := pf.deletePosition symbol, store := ts.store.delete symbol }
    | some pf' => trackerPersist ts pf' symbol

/-- One iteration of `sync_with_broker`'s loop over broker positions: upsert
the position into the in-memory dict and persist it. -/
def syncUpsert (acc : Portfolio × PositionsStore) (p : BrokerPosition) :
    Portfolio × PositionsStore :=
  (acc.1.setPosition
    { symbol := p.symbol, quantity := p.quantity, avg_price := p.avg_price
      current_price := p.current_price },
   acc.2.save p.symbol p.quantity p.avg_price)

/-- `PortfolioTracker.sync_with_broker` continued: overwrite cash and equity
from the balance, upsert every broker position via `syncUpsert`, then delete
every local position whose symbol the broker did not report. -/
def syncWithBroker (ts : TrackerState) (positions : List BrokerPosition)
    (balance : Balance) : TrackerState :=
  let pf := { ts.portfolio with cash := balance.available_cash
                                total_equity := balance.total_equity }
  let upserted := positions.foldl syncUpsert (pf, ts.store)
  let brokerSymbols := positions.map (fun p => p.symbol)
  let removed := (upserted.1.positions.filter
    (fun q => ¬ brokerSymbols.contains q.symbol)).map (fun q => q.symbol)
  { portfolio :=
      { upserted.1 with positions :=
          upserted.1.positions.filter (fun q => brokerSymbols.contains q.symbol) }
    store := removed.foldl (fun st s => st.delete s) upserted.2 }

/-! ## Reconciler (`krader/recovery/reconciler.py`) -/

/-- A broker open-order row as `fetch_open_orders` returns it; the
reconciler reads only `broker_order_id` and `filled_quantity`. -/
structure BrokerOpenOrder where
  broker_order_id : String
  filled_quantity : ℤ
  deriving Repr

/-- The direct status assignment the reconciler performs on a local open
order whose broker id is absent from the broker's open-order set: `FILLED`
when fills were recorded, `CANCELED` otherwise (no transition-table check in
the source — it assigns `order.status` directly). -/
def reconcileMarkMissing (o : Order) : Order :=
  if 0 < o.filled_quantity then { o with status := .filled }
  else { o with status := .canceled }

/-- One iteration of `_reconcile_orders`'s first loop: mark a local open
order whose truthy broker id is absent from the broker's open-order set. -/
def reconcileMarkStep (brokerOrderIds : List String) (acc : Store × ℕ)
    (localOrder : Order) : Store × ℕ :=
  if pyStrTruthy localOrder.broker_order_id
      ∧ ¬ brokerOrderIds.contains ((localOrder.broker_order_id).getD "") then
    (acc.1.updateOrder (reconcileMarkMissing localOrder), acc.2 + 1)
  else acc

/-- One iteration of `_reconcile_orders`'s second loop: copy the broker's
`filled_quantity` onto the matching local order when it differs. -/
def reconcileSyncStep (acc : Store × ℕ) (brokerOrder : BrokerOpenOrder) :
    Store × ℕ :=
  match acc.1.getOrderByBrokerId brokerOrder.broker_order_id with
  | some localRow =>
    if brokerOrder.filled_quantity ≠ localRow.filled_quantity then
      (acc.1.updateOrder { localRow with filled_quantity := brokerOrder.filled_quantity },
       acc.2 + 1)
    else acc
  | none => acc

/-- `Reconciler._reconcile_orders`: first pass marks local open orders with
a truthy broker id missing from the broker set; second pass copies
`filled_quantity` from each broker order onto its local counterpart.
Returns the store plus the `(updated, canceled)` counters. -/
def reconcileOrders (st : Store) (brokerOrders : List BrokerOpenOrder) :
    Store × ℕ × ℕ :=
  let brokerOrderIds := brokerOrders.map (fun o => o.broker_order_id)
  let localOpenOrders := st.getOpenOrders
  let firstPass := localOpenOrders.foldl (reconcileMarkStep brokerOrderIds) (st, 0)
  let secondPass := brokerOrders.foldl reconcileSyncStep (firstPass.1, 0)
  (secondPass.1, secondPass.2, firstPass.2)

/-- `ReconciliationResult` (fields the checked properties read). -/
structure ReconciliationResult where
  success : Bool
  run_id : String
  positions_synced : ℕ := 0
  orders_updated : ℕ := 0
  orders_canceled : ℕ := 0
  error : Option String := none
  deriving Repr

/-- `Reconciler.reconcile`.  The bot-run bookkeeping
(`_cleanup_previous_runs`, `start_bot_run`) touches only the `bot_runs`
table, which no checked property concerns, and is omitted; `runId` stands
for the fresh `RUN-…` id.  The broker fetches are passed in as data.  The
modelled steps are total, so the `except` branch of the source cannot be
taken here. -/
def reconcile (st : Store) (ts : TrackerState) (connected : Bool)
    (brokerPositions : List BrokerPosition) (balance : Balance)
    (brokerOrders : List BrokerOpenOrder) (runId : String) :
    ReconciliationResult × Store × TrackerState :=
  if ¬ connected then
    ({ success := false, run_id := runId, error := some "Broker not connected" }, st, ts)
  else
    let ts := syncWithBroker ts brokerPositions balance
    let afterOrders := reconcileOrders st brokerOrders
    ({ success := true
       run_id := runId
       positions_synced := brokerPositions.length
       orders_updated := afterOrders.2.1
       orders_canceled := afterOrders.2.2 },
     afterOrders.1, ts)

/-! ## Market data types and candle aggregation
(`krader/market/types.py`, `krader/market/candle.py`) -/

/-- The `Tick` dataclass. -/
structure Tick where
  symbol : String
  price : ℚ
  volume : ℤ
  timestamp : PyTime
  deriving Repr

/-- The `__post_init__` validation: construction raises unless the price is
positive and the volume non-negative, so every live `Tick` satisfies this. -/
def Tick.valid (t : Tick) : Prop := 0 < t.price ∧ 0 ≤ t.volume

/-- The `Candle` dataclass (`open` is a Lean keyword, hence `open_`). -/
structure Candle where
  symbol : String
  timeframe : String
  open_time : PyTime
  open_ : ℚ
  high : ℚ
  low : ℚ
  close : ℚ
  volume : ℤ
  deriving Repr

/-- `Candle.update_with_tick`: raises on a symbol mismatch; otherwise raises
high/lowers low as needed, sets close, and accumulates volume. -/
def Candle.updateWithTick (c : Candle) (tick : Tick) : Except String Candle :=
  if tick.symbol ≠ c.symbol then
    .error ("Tick symbol " ++ tick.symbol ++ " doesn't match candle " ++ c.symbol)
  else
    let c := if c.high < tick.price then { c with high := tick.price } else c
    let c := if tick.price < c.low then { c with low := tick.price } else c
    .ok { c with close := tick.price, volume := c.volume + tick.volume }

/-- `Candle.from_tick`. -/
def Candle.fromTick (tick : Tick) (timeframe : String) (openTime : PyTime) : Candle :=
  { symbol := tick.symbol
    timeframe := timeframe
    open_time := openTime
    open_ := tick.price
    high := tick.price
    low := tick.price
    close := tick.price
    volume := tick.volume }

/-- The `TIMEFRAME_MINUTES` table, with `.get(timeframe, 1)`'s default. -/
def timeframeMinutes : String → ℕ
  | "1m" => 1
  | "5m" => 5
  | "15m" => 15
  | "30m" => 30
  | "60m" => 60
  | "1h" => 60
  | "4h" => 240
  | "1d" => 1440
  | _ => 1

/-- `get_candle_open_time`: midnight-aligned for day-sized timeframes,
otherwise the minute-of-day floored to the timeframe boundary. -/
def getCandleOpenTime (timestamp : PyTime) (timeframe : String) : PyTime :=
  let minutes := timeframeMinutes timeframe
  if 1440 ≤ minutes then
    { timestamp with hour := 0, minute := 0, second := 0, microsecond := 0 }
  else
    let totalMinutes := timestamp.hour * 60 + timestamp.minute
    let candleMinutes := (totalMinutes / minutes) * minutes
    { timestamp with hour := candleMinutes / 60, minute := candleMinutes % 60
                     second := 0, microsecond := 0 }

/-- Lookup in the per-symbol dict of in-progress candles. -/
def innerGet (inner : List (String × Candle)) (timeframe : String) : Option Candle :=
  (inner.find? (fun e => e.1 = timeframe)).map (fun e => e.2)

/-- Upsert in the per-symbol dict of in-progress candles. -/
def innerSet (inner : List (String × Candle)) (timeframe : String) (c : Candle) :
    List (String × Candle) :=
  if inner.any (fun e => e.1 = timeframe) then
    inner.map (fun e => if e.1 = timeframe then (timeframe, c) else e)
  else
    inner ++ [(timeframe, c)]

/-- The body of `CandleBuilder.process_tick`'s loop over `self._timeframes`,
threading the per-symbol dict and collecting candles closed by this tick in
loop order. -/
def processTimeframes (tick : Tick) (tfs : List String)
    (inner : List (String × Candle)) :
    Except String (List Candle × List (String × Candle)) :=
  match tfs with
  | [] => .ok ([], inner)
  | tf :: rest =>
    let openTime := getCandleOpenTime tick.timestamp tf
    match innerGet inner tf with
    | none =>
      processTimeframes tick rest (innerSet inner tf (Candle.fromTick tick tf openTime))
    | some candle =>
      if candle.open_time ≠ openTime then
        match processTimeframes tick rest
            (innerSet inner tf (Candle.fromTick tick tf openTime)) with
        | .error e => .error e
        | .ok (closed, inner') => .ok (candle :: closed, inner')
      else
        match candle.updateWithTick tick with
        | .error e => .error e
        | .ok c' => processTimeframes tick rest (innerSet inner tf c')

/-- `CandleBuilder` state: configured timeframes and the nested
symbol → timeframe → in-progress-candle dict. -/
structure CandleBuilder where
  timeframes : List String
  current : List (String × List (String × Candle))
  deriving Repr

/-- `CandleBuilder.process_tick`: ensure the symbol's dict exists, run the
timeframe loop, and write the updated dict back. -/
def CandleBuilder.processTick (b : CandleBuilder) (tick : Tick) :
    Except String (List Candle × CandleBuilder) :=
  let inner := ((b.current.find? (fun e => e.1 = tick.symbol)).map (fun e => e.2)).getD []
  match processTimeframes tick b.timeframes inner with
  | .error e => .error e
  | .ok (closed, inner') =>
    let current :=
      if b.current.any (fun e => e.1 = tick.symbol) then
        b.current.map (fun e => if e.1 = tick.symbol then (tick.symbol, inner') else e)
      else
        b.current ++ [(tick.symbol, inner')]
    .ok (closed, { b with current := current })

/-- `CandleBuilder.flush_all`: every in-progress candle is emitted as closed
and the state is cleared. -/
def CandleBuilder.flushAll (b : CandleBuilder) : List Candle × CandleBuilder :=
  (b.current.foldl (fun acc e => acc ++ e.2.map (fun tc => tc.2)) [],
   { b with current := [] })

/-- Feed a tick sequence to the builder, accumulating every closed candle,
and propagating any exception. -/
def CandleBuilder.processTicks (b : CandleBuilder) (ticks : List Tick) :
    Except String (List Candle × CandleBuilder) :=
  match ticks with
  | [] => .ok ([], b)
  | t :: rest =>
    match b.processTick t with
    | .error e => .error e
    | .ok (closed, b') =>
      match b'.processTicks rest with
      | .error e => .error e
      | .ok (closedRest, b'') => .ok (closed ++ closedRest, b'')

/-! ## Control-plane operations touching the validator's kill switch
(`activate_kill_switch` / `deactivate_kill_switch`;
`validate_signal` reads the latched boolean) -/

/-- The operations that write the validator's kill-switch flag between two
validations.  `validate_signal` only reads the flag, so a sequence of state
changes is fully described by these two. -/
inductive ValidatorOp where
  | activate
  | deactivate
  deriving DecidableEq, Repr

/-- Apply one kill-switch operation. -/
def applyValidatorOp (v : RiskValidator) : ValidatorOp → RiskValidator
  | .activate => v.activateKillSwitch
  | .deactivate => v.deactivateKillSwitch

/-- Run a sequence of kill-switch operations. -/
def runValidatorOps (v : RiskValidator) (ops : List ValidatorOp) : RiskValidator :=
  ops.foldl applyValidatorOp v

/-- After `activate`, the flag stays set along any operation sequence that
contains no `deactivate`. -/
theorem runValidatorOps_active (ops : List ValidatorOp)
    (h : ValidatorOp.deactivate ∉ ops) (v : RiskValidator)
    (hv : v.kill_switch_active = true) :
    (runValidatorOps v ops).kill_switch_active = true := by
  induction ops generalizing v with
  | nil => exact hv
  | cons op rest ih =>
    have hop : op ≠ ValidatorOp.deactivate := fun he => h (he ▸ List.mem_cons_self _ _)
    have hrest : ValidatorOp.deactivate ∉ rest := fun hm => h (List.mem_cons_of_mem _ hm)
    cases op with
    | activate =>
      exact ih hrest _ rfl
    | deactivate => exact absurd rfl hop

/-- C4.  Kill-switch latch: once `activate_kill_switch` has run, every
subsequent `validate_signal` call — for any signal, portfolio, price,
context and clock — returns `approved=false` with reject reason
`"Kill switch is active"`, and this persists across any further operations
until `deactivate_kill_switch` is explicitly called. -/
theorem kill_switch_latch (v : RiskValidator) (ops : List ValidatorOp)
    (h : ValidatorOp.deactivate ∉ ops) :
    (runValidatorOps v.activateKillSwitch ops).kill_switch_active = true ∧
    ∀ (signal : Signal) (pf : Portfolio) (currentPrice : Option ℚ)
      (context : Option StrategyContext) (now : PyTime),
      (runValidatorOps v.activateKillSwitch ops).validateSignal
          signal pf currentPrice context now
        = ValidationResult.reject "Kill switch is active" := by
  have hact : (runValidatorOps v.activateKillSwitch ops).kill_switch_active = true :=
    runValidatorOps_active ops h _ rfl
  refine ⟨hact, fun signal pf currentPrice context now => ?_⟩
  unfold RiskValidator.validateSignal
  rw [hact]
  simp

/-- Witness for C4: a concrete activation followed by a further `activate`,
with a concrete validation call rejected by the latched switch. -/
theorem kill_switch_latch_witness :
    (ValidatorOp.deactivate ∉ [ValidatorOp.activate]) ∧
    (runValidatorOps (RiskValidator.activateKillSwitch ⟨{}, false⟩)
        [ValidatorOp.activate]).validateSignal
        { signal_id := "SIG-1", strategy_name := "s", symbol := "X"
          action := "BUY", confidence := 1, reason := "r"
          suggested_quantity := some 10, timestamp := 0 }
        {} (some 100) none ⟨0, 10, 0, 0, 0⟩
      = ValidationResult.reject "Kill switch is active" := by
  refine ⟨by decide, ?_⟩
  exact (kill_switch_latch ⟨{}, false⟩ [ValidatorOp.activate] (by decide)).2 _ _ _ _ _

/-! ## Daily loss limit -/

/-- Configuration for the daily-loss boundary counterexample: loss limit 100,
zero transaction costs, otherwise default. -/
def c7cfg : RiskConfig :=
  { daily_loss_limit := 100, transaction_cost_rate := 0 }

/-- Portfolio sitting exactly at the negated daily loss limit. -/
def c7portfolio : Portfolio :=
  { positions := [], cash := 1000000, total_equity := 1000000, daily_pnl := -100 }

/-- A BUY signal with an explicit suggested quantity. -/
def c7signal : Signal :=
  { signal_id := "SIG-C7", strategy_name := "s", symbol := "X", action := "BUY"
    confidence := 1, reason := "r", suggested_quantity := some 10, timestamp := 0 }

/-- Counterexample to C7 as stated: with `daily_pnl = -100` equal to the
negated `daily_loss_limit = 100` (so `daily_pnl ≤ -daily_loss_limit`), a BUY
signal that reaches the daily-loss check is nevertheless approved —
`_check_daily_loss_limit` rejects only on strictly smaller `daily_pnl`. -/
theorem daily_loss_equality_approves :
    c7portfolio.daily_pnl ≤ -c7cfg.daily_loss_limit ∧
    (RiskValidator.validateSignal ⟨c7cfg, false⟩ c7signal c7portfolio
        (some 100) none ⟨0, 10, 0, 0, 0⟩).approved = true ∧
    (RiskValidator.checkDailyLossLimit c7cfg c7portfolio).approved = true := by
  refine ⟨by norm_num [c7portfolio, c7cfg], ?_,
    by norm_num [RiskValidator.checkDailyLossLimit, c7cfg, c7portfolio,
      ValidationResult.accept]⟩
  norm_num [RiskValidator.validateSignal, RiskValidator.isTradingHours, PyTime.le,
    RiskValidator.validateSignalChecks, RiskValidator.checkPositionSize,
    Portfolio.getPositionQuantity, Portfolio.getPosition, Portfolio.totalPositionValue,
    RiskValidator.checkPortfolioExposure, RiskValidator.checkAvailableCash,
    RiskValidator.estimatedTransactionCost, RiskValidator.checkDailyLossLimit,
    RiskValidator.maxBuyableQuantity, pyInt, ValidationResult.accept,
    ValidationResult.reject, c7cfg, c7portfolio, c7signal, List.find?]
  decide

/-- C7 amended: the daily-loss check rejects exactly when
`daily_pnl < -daily_loss_limit` (strict); at exact equality with the negated
limit it approves, and `validate_signal` can approve there. -/
theorem daily_loss_limit_strict (cfg : RiskConfig) (pf : Portfolio) :
    ((RiskValidator.checkDailyLossLimit cfg pf).approved = true
      ↔ -cfg.daily_loss_limit ≤ pf.daily_pnl) ∧
    (RiskValidator.checkDailyLossLimit cfg pf
        = ValidationResult.reject "Daily loss limit exceeded"
      ↔ pf.daily_pnl < -cfg.daily_loss_limit) := by
  unfold RiskValidator.checkDailyLossLimit
  by_cases h : pf.daily_pnl < -cfg.daily_loss_limit
  · simp [h, ValidationResult.reject, not_le.mpr h]
  · simp [h, ValidationResult.accept, ValidationResult.reject, not_lt.mp h]

/-! ## Cash check with transaction costs -/

/-- `pyInt` is the floor on non-negative arguments. -/
theorem pyInt_of_nonneg {q : ℚ} (h : 0 ≤ q) : pyInt q = ⌊q⌋ := if_pos h

/-- Configuration of the spec's concrete cash scenario:
`transaction_cost_rate = 0.01`. -/
def c6cfg : RiskConfig := { transaction_cost_rate := 1 / 100 }

/-- Portfolio of the spec's concrete cash scenario: cash 10,000,000. -/
def c6portfolio : Portfolio := { cash := 10000000 }

/-- C6.  Cash check with fees: a BUY of `qty` shares at price `p` passes
unchanged when `p·qty·(1 + rate) ≤ cash`; otherwise the check approves
`⌊cash / (p·(1 + rate))⌋` shares, rejecting when that floor is 0.
Concretely, cash 10,000,000 at price 50,000 with rate 0.01 caps 200
requested shares at 198 (both in `_check_available_cash` and in
`_max_buyable_quantity`). -/
theorem cash_check_with_fees (cfg : RiskConfig) (qty : ℤ) (p : ℚ) (pf : Portfolio)
    (hp : 0 < p) (hcash : 0 ≤ pf.cash) (hrate : 0 ≤ cfg.transaction_cost_rate) :
    (p * qty * (1 + cfg.transaction_cost_rate) ≤ pf.cash →
      RiskValidator.checkAvailableCash cfg qty (some p) pf
        = ValidationResult.accept qty) ∧
    (pf.cash < p * qty * (1 + cfg.transaction_cost_rate) →
      (if ⌊pf.cash / (p * (1 + cfg.transaction_cost_rate))⌋ = 0 then
        (RiskValidator.checkAvailableCash cfg qty (some p) pf).approved = false
      else
        RiskValidator.checkAvailableCash cfg qty (some p) pf
          = ValidationResult.accept ⌊pf.cash / (p * (1 + cfg.transaction_cost_rate))⌋)) ∧
    RiskValidator.checkAvailableCash c6cfg 200 (some 50000) c6portfolio
      = ValidationResult.accept 198 ∧
    RiskValidator.maxBuyableQuantity c6cfg (some 50000) c6portfolio = 198 := by
  have heff : (0 : ℚ) < p * (1 + cfg.transaction_cost_rate) := by
    have : (0 : ℚ) < 1 + cfg.transaction_cost_rate := by linarith
    positivity
  have hcost : p * qty + RiskValidator.estimatedTransactionCost cfg qty p
      = p * qty * (1 + cfg.transaction_cost_rate) := by
    unfold RiskValidator.estimatedTransactionCost; ring
  refine ⟨?_, ?_, ?_, ?_⟩
  · intro hle
    simp only [RiskValidator.checkAvailableCash]
    rw [hcost]
    rw [if_neg (not_lt.mpr hle)]
  · intro hlt
    have hq : (0 : ℚ) ≤ pf.cash / (p * (1 + cfg.transaction_cost_rate)) :=
      div_nonneg hcash (le_of_lt heff)
    have hfl : 0 ≤ ⌊pf.cash / (p * (1 + cfg.transaction_cost_rate))⌋ :=
      Int.floor_nonneg.mpr hq
    simp only [RiskValidator.checkAvailableCash]
    rw [hcost]
    rw [if_pos hlt]
    rw [pyInt_of_nonneg hq]
    by_cases h0 : ⌊pf.cash / (p * (1 + cfg.transaction_cost_rate))⌋ = 0
    · rw [if_pos h0, if_pos (by omega : ⌊pf.cash / (p * (1 + cfg.transaction_cost_rate))⌋ ≤ 0)]
      rfl
    · rw [if_neg h0, if_neg (by omega : ¬ ⌊pf.cash / (p * (1 + cfg.transaction_cost_rate))⌋ ≤ 0)]
  · norm_num [RiskValidator.checkAvailableCash, RiskValidator.estimatedTransactionCost,
      c6cfg, c6portfolio, pyInt, ValidationResult.accept]
  · norm_num [RiskValidator.maxBuyableQuantity, c6cfg, c6portfolio, pyInt]

/-- Witness for C6 at the spec's concrete inputs: price 50,000 > 0, cash
10,000,000 ≥ 0, rate 0.01 ≥ 0, and the over-budget branch approving
⌊10,000,000 / 50,500⌋ = 198. -/
theorem cash_check_with_fees_witness :
    ((0 : ℚ) < 50000 ∧ (0 : ℚ) ≤ c6portfolio.cash
      ∧ (0 : ℚ) ≤ c6cfg.transaction_cost_rate
      ∧ c6portfolio.cash < 50000 * (200 : ℤ) * (1 + c6cfg.transaction_cost_rate)) ∧
    RiskValidator.checkAvailableCash c6cfg 200 (some 50000) c6portfolio
      = ValidationResult.accept 198 := by
  have h1 : (0 : ℚ) < 50000 := by norm_num
  have h2 : (0 : ℚ) ≤ c6portfolio.cash := by norm_num [c6portfolio]
  have h3 : (0 : ℚ) ≤ c6cfg.transaction_cost_rate := by norm_num [c6cfg]
  have h4 : c6portfolio.cash < 50000 * ((200 : ℤ) : ℚ) * (1 + c6cfg.transaction_cost_rate) := by
    norm_num [c6portfolio, c6cfg]
  refine ⟨⟨h1, h2, h3, h4⟩, ?_⟩
  exact (cash_check_with_fees c6cfg 200 50000 c6portfolio h1 h2 h3).2.2.1

/-! ## Validation without a strategy context -/

/-- The max-trades rejection string starts with `'M'`. -/
theorem maxTradesMessage_head (c mt : ℤ) :
    (maxTradesMessage c mt).data.head? = some 'M' := by
  simp only [maxTradesMessage, String.data_append]
  rfl

/-- A string that does not start with `'M'` is not a max-trades rejection. -/
theorem s_ne_maxTradesMessage {s : String} (hs : s.data.head? ≠ some 'M')
    (c mt : ℤ) : s ≠ maxTradesMessage c mt :=
  fun he => hs (he ▸ maxTradesMessage_head c mt)

/-- The position-limit rejection string starts with `'P'`. -/
theorem positionLimit_head (sym : String) :
    ("Position size limit reached for " ++ sym).data.head? = some 'P' := by
  simp only [String.data_append]
  rfl

/-- The insufficient-cash rejection string starts with `'I'`. -/
theorem insufficientCash_head (a b : String) :
    (insufficientCashMessage a b).data.head? = some 'I' := by
  simp only [insufficientCashMessage, String.data_append]
  rfl

/-- `r` is not a max-trades rejection. -/
def NotMaxTrades (r : ValidationResult) : Prop :=
  ∀ c mt : ℤ, r.reject_reason ≠ some (maxTradesMessage c mt)

/-- A rejection whose reason does not start with `'M'` is not a max-trades
rejection. -/
theorem notMaxTrades_reject {s : String} (h : s.data.head? ≠ some 'M') :
    NotMaxTrades (ValidationResult.reject s) :=
  fun c mt he => s_ne_maxTradesMessage h c mt (Option.some.inj he)

/-- Approvals carry no reject reason. -/
theorem notMaxTrades_accept (q : ℤ) : NotMaxTrades (ValidationResult.accept q) := by
  intro c mt he
  simp [ValidationResult.accept] at he

/-- `_check_position_size` never produces the max-trades reason. -/
theorem checkPositionSize_notMaxTrades (cfg : RiskConfig) (sym action : String)
    (q : ℤ) (pf : Portfolio) :
    NotMaxTrades (RiskValidator.checkPositionSize cfg sym action q pf) := by
  unfold RiskValidator.checkPositionSize
  dsimp only
  repeat' split
  all_goals
    first
    | exact notMaxTrades_accept _
    | exact notMaxTrades_reject (by rw [positionLimit_head]; decide)

/-- `_check_portfolio_exposure` never produces the max-trades reason. -/
theorem checkPortfolioExposure_notMaxTrades (cfg : RiskConfig) (q : ℤ)
    (cp : Option ℚ) (pf : Portfolio) :
    NotMaxTrades (RiskValidator.checkPortfolioExposure cfg q cp pf) := by
  unfold RiskValidator.checkPortfolioExposure
  dsimp only
  repeat' split
  all_goals
    first
    | exact notMaxTrades_accept _
    | exact notMaxTrades_reject (by decide)

/-- `_check_available_cash` never produces the max-trades reason. -/
theorem checkAvailableCash_notMaxTrades (cfg : RiskConfig) (q : ℤ)
    (cp : Option ℚ) (pf : Portfolio) :
    NotMaxTrades (RiskValidator.checkAvailableCash cfg q cp pf) := by
  unfold RiskValidator.checkAvailableCash
  dsimp only
  repeat' split
  all_goals
    first
    | exact notMaxTrades_accept _
    | exact notMaxTrades_reject (by rw [insufficientCash_head]; decide)

/-- `_check_daily_loss_limit` never produces the max-trades reason. -/
theorem checkDailyLossLimit_notMaxTrades (cfg : RiskConfig) (pf : Portfolio) :
    NotMaxTrades (RiskValidator.checkDailyLossLimit cfg pf) := by
  unfold RiskValidator.checkDailyLossLimit
  split
  · exact notMaxTrades_reject (by decide)
  · exact notMaxTrades_accept _

/-- Steps 6–10 never produce the max-trades reason. -/
theorem validateSignalChecks_notMaxTrades (v : RiskValidator) (signal : Signal)
    (pf : Portfolio) (cp : Option ℚ) (q : ℤ) :
    NotMaxTrades (v.validateSignalChecks signal pf cp q) := by
  unfold RiskValidator.validateSignalChecks
  dsimp only
  repeat' split
  all_goals
    first
    | exact notMaxTrades_accept _
    | exact notMaxTrades_reject (by decide)
    | apply checkPositionSize_notMaxTrades
    | apply checkPortfolioExposure_notMaxTrades
    | apply checkAvailableCash_notMaxTrades
    | apply checkDailyLossLimit_notMaxTrades

/-- With `context=None`, `validate_signal` never produces the max-trades
reason. -/
theorem validateSignal_none_notMaxTrades (v : RiskValidator) (signal : Signal)
    (pf : Portfolio) (cp : Option ℚ) (now : PyTime) :
    NotMaxTrades (v.validateSignal signal pf cp none now) := by
  simp only [RiskValidator.validateSignal]
  repeat' split
  all_goals
    first
    | exact notMaxTrades_reject (by decide)
    | apply validateSignalChecks_notMaxTrades
    | skip
  -- remaining goals come from the `match requested with | .error r => r` arm:
  -- the scrutinee only builds `.error` values out of reject literals
  all_goals rename_i heq
  all_goals
    repeat' split at heq
  all_goals
    first
    | (injection heq with h
       subst h
       exact notMaxTrades_reject (by decide))
    | simp at heq

/-- Configuration for the concrete no-context approval: the tightest legal
trade budget (`max_trades_per_day = 1`) and zero transaction costs. -/
def c10cfg : RiskConfig := { max_trades_per_day := 1, transaction_cost_rate := 0 }

/-- Portfolio for the concrete no-context approval. -/
def c10portfolio : Portfolio :=
  { positions := [], cash := 1000000, total_equity := 1000000, daily_pnl := 0 }

/-- A BUY signal for the concrete no-context approval. -/
def c10signal : Signal :=
  { signal_id := "SIG-C10", strategy_name := "s", symbol := "X", action := "BUY"
    confidence := 1, reason := "r", suggested_quantity := some 10, timestamp := 0 }

/-- C10.  When `validate_signal` is called with `context=None` the
max-trades-per-day check is skipped entirely: the result does not depend on
the configured `max_trades_per_day` at all, its reject reason is never the
max-trades message, and a concrete call approves even under the tightest
`max_trades_per_day = 1` budget. -/
theorem no_context_skips_max_trades (cfg : RiskConfig) (m : ℤ) (ks : Bool)
    (signal : Signal) (pf : Portfolio) (currentPrice : Option ℚ) (now : PyTime) :
    (RiskValidator.validateSignal ⟨{ cfg with max_trades_per_day := m }, ks⟩
        signal pf currentPrice none now
      = RiskValidator.validateSignal ⟨cfg, ks⟩ signal pf currentPrice none now) ∧
    (∀ c mt : ℤ,
      (RiskValidator.validateSignal ⟨cfg, ks⟩ signal pf currentPrice none now).reject_reason
        ≠ some (maxTradesMessage c mt)) ∧
    (RiskValidator.validateSignal ⟨c10cfg, false⟩ c10signal c10portfolio
        (some 100) none ⟨0, 10, 0, 0, 0⟩).approved = true := by
  refine ⟨?_, ?_, ?_⟩
  · simp only [RiskValidator.validateSignal, RiskValidator.validateSignalChecks,
      RiskValidator.isTradingHours, RiskValidator.calculatePositionSize,
      RiskValidator.checkPositionSize, RiskValidator.checkPortfolioExposure,
      RiskValidator.checkAvailableCash, RiskValidator.estimatedTransactionCost,
      RiskValidator.checkDailyLossLimit, RiskValidator.maxBuyableQuantity]
  · exact fun c mt =>
      validateSignal_none_notMaxTrades ⟨cfg, ks⟩ signal pf currentPrice now c mt
  · norm_num [RiskValidator.validateSignal, RiskValidator.isTradingHours, PyTime.le,
      RiskValidator.validateSignalChecks, RiskValidator.checkPositionSize,
      Portfolio.getPositionQuantity, Portfolio.getPosition, Portfolio.totalPositionValue,
      RiskValidator.checkPortfolioExposure, RiskValidator.checkAvailableCash,
      RiskValidator.estimatedTransactionCost, RiskValidator.checkDailyLossLimit,
      RiskValidator.maxBuyableQuantity, pyInt, ValidationResult.accept,
      ValidationResult.reject, c10cfg, c10portfolio, c10signal, List.find?]
    decide

/-! ## Fill application -/

/-- Characterization of `transition_to`: it succeeds exactly on transitions
in the `VALID_TRANSITIONS` table, only changing the status field, and fails
with the invalid-transition message otherwise. -/
theorem transitionTo_cases (o : Order) (s : OrderStatus) :
    (validTransition o.status s = true ∧ o.transitionTo s = .ok { o with status := s }) ∨
    (validTransition o.status s = false ∧
      o.transitionTo s
        = .error ("Invalid transition: " ++ o.status.value ++ " -> " ++ s.value)) := by
  unfold Order.transitionTo Order.canTransitionTo
  by_cases h : validTransition o.status s
  · exact Or.inl ⟨h, by rw [if_pos h]⟩
  · refine Or.inr ⟨by simpa using h, by rw [if_neg (by simpa using h)]⟩

/-- `apply_fill` accepts a fill exactly when the quantity is positive and
within the remaining quantity, provided the order is `SUBMITTED` or
`PARTIAL_FILL`; the accepted order keeps its quantity and advances
`filled_quantity` by the fill. -/
theorem applyFill_accepts {o : Order} {q : ℤ}
    (hstat : o.status = .submitted ∨ o.status = .partialFill)
    (h1 : 0 < q) (h2 : q ≤ o.remainingQuantity) :
    ∃ o', o.applyFill q = .ok o' ∧ o'.quantity = o.quantity ∧
      o'.filled_quantity = o.filled_quantity + q ∧
      (o'.status = .submitted ∨ o'.status = .partialFill ∨ o'.status = .filled) := by
  unfold Order.applyFill
  rw [if_neg (by omega), if_neg (by omega)]
  dsimp only
  have hrem : o.remainingQuantity = o.quantity - o.filled_quantity := rfl
  split
  · -- fill completes: transition to FILLED succeeds from both statuses
    rcases transitionTo_cases { o with filled_quantity := o.filled_quantity + q } .filled with
      ⟨_, hok⟩ | ⟨hbad, _⟩
    · exact ⟨_, hok, rfl, rfl, Or.inr (Or.inr rfl)⟩
    · rcases hstat with h | h <;> simp [h, validTransition] at hbad
  · split
    · -- partial fill from SUBMITTED
      rename_i hsub
      rcases transitionTo_cases { o with filled_quantity := o.filled_quantity + q }
          .partialFill with ⟨_, hok⟩ | ⟨hbad, _⟩
      · exact ⟨_, hok, rfl, rfl, Or.inr (Or.inl rfl)⟩
      · simp only [hsub] at hbad
        simp [validTransition] at hbad
    · exact ⟨_, rfl, rfl, rfl, by
        rcases hstat with h | h
        · exact Or.inl h
        · exact Or.inr (Or.inl h)⟩

/-- `apply_fill` rejects non-positive and over-remaining quantities. -/
theorem applyFill_rejects {o : Order} {q : ℤ}
    (h : q ≤ 0 ∨ o.remainingQuantity < q) :
    ∃ msg, o.applyFill q = .error msg := by
  unfold Order.applyFill
  rcases h with h | h
  · exact ⟨_, by rw [if_pos h]⟩
  · by_cases h0 : q ≤ 0
    · exact ⟨_, by rw [if_pos h0]⟩
    · exact ⟨_, by rw [if_neg h0, if_pos (by omega)]⟩

/-- The order of the C2 counterexample: a submitted BUY order for 10 shares
with no fills yet. -/
def c2order : Order :=
  { order_id := "ORD-C2", signal_id := "SIG-C2", symbol := "X", side := "BUY"
    order_type := "MARKET", quantity := 10, broker_order_id := some "B1"
    status := .submitted }

/-- The store of the C2 counterexample. -/
def c2store : Store := { orders := [c2order], fills := [] }

/-- Counterexample to C2 as stated: a fill notification with quantity 0 is
rejected (`apply_fill` raises), and the order row is untouched — but the
fill row was persisted *before* validation, so the stored fill records do
not remain unchanged: the fills table grows from 0 to 1 rows. -/
theorem rejected_fill_persists_fill_row :
    (handleFill c2store "B1" 0 100).1
      = FillOutcome.errored "Fill quantity must be positive" ∧
    (handleFill c2store "B1" 0 100).2.orders = c2store.orders ∧
    c2store.fills.length = 0 ∧
    (handleFill c2store "B1" 0 100).2.fills.length = 1 := by
  refine ⟨rfl, rfl, rfl, rfl⟩

/-- What a successful `apply_fill` guarantees: the quantity was positive and
within the remaining amount, the order quantity is unchanged, the filled
quantity advances by the fill, and the status either stays put or moves to
`FILLED` / `PARTIAL_FILL`. -/
theorem applyFill_ok_props {o o' : Order} {q : ℤ} (h : o.applyFill q = .ok o') :
    0 < q ∧ q ≤ o.remainingQuantity ∧ o'.quantity = o.quantity ∧
    o'.filled_quantity = o.filled_quantity + q ∧
    o'.broker_order_id = o.broker_order_id ∧
    (o'.status = o.status
      ∨ (o'.status = .filled ∧ validTransition o.status .filled = true)
      ∨ (o'.status = .partialFill ∧ validTransition o.status .partialFill = true)) := by
  unfold Order.applyFill at h
  by_cases h1 : q ≤ 0
  · rw [if_pos h1] at h; exact absurd h (by simp)
  rw [if_neg h1] at h
  by_cases h2 : q > o.remainingQuantity
  · rw [if_pos h2] at h; exact absurd h (by simp)
  rw [if_neg h2] at h
  dsimp only at h
  refine ⟨by omega, by omega, ?_⟩
  split at h
  · rcases transitionTo_cases { o with filled_quantity := o.filled_quantity + q }
        .filled with ⟨hv, hok⟩ | ⟨_, herr⟩
    · rw [hok] at h
      injection h with h
      subst h
      exact ⟨rfl, rfl, rfl, Or.inr (Or.inl ⟨rfl, hv⟩)⟩
    · rw [herr] at h; exact absurd h (by simp)
  · split at h
    · rcases transitionTo_cases { o with filled_quantity := o.filled_quantity + q }
          .partialFill with ⟨hv, hok⟩ | ⟨_, herr⟩
      · rw [hok] at h
        injection h with h
        subst h
        exact ⟨rfl, rfl, rfl, Or.inr (Or.inr ⟨rfl, hv⟩)⟩
      · rw [herr] at h; exact absurd h (by simp)
    · injection h with h
      subst h
      exact ⟨rfl, rfl, rfl, Or.inl rfl⟩

/-- Sequential fill application as the OMS performs it: apply each quantity
with `apply_fill`, keeping the previous order state when a fill is rejected
(the raised `ValueError` prevents the store update), and record the accepted
quantities. -/
def applyFills (o : Order) (qs : List ℤ) : Order × List ℤ :=
  match qs with
  | [] => (o, [])
  | q :: rest =>
    match o.applyFill q with
    | .ok o' =>
      let r := applyFills o' rest
      (r.1, q :: r.2)
    | .error _ => applyFills o rest

/-- Invariant of sequential fill application: quantity never changes, the
filled quantity advances by exactly the sum of the accepted fills, and it
never exceeds the order quantity. -/
theorem applyFills_invariant (qs : List ℤ) (o : Order)
    (hstat : o.status = .submitted ∨ o.status = .partialFill ∨ o.status = .filled)
    (hle : o.filled_quantity ≤ o.quantity) :
    (applyFills o qs).1.quantity = o.quantity ∧
    (applyFills o qs).1.filled_quantity
      = o.filled_quantity + ((applyFills o qs).2).sum ∧
    (applyFills o qs).1.filled_quantity ≤ o.quantity := by
  induction qs generalizing o with
  | nil => exact ⟨rfl, by simp [applyFills], hle⟩
  | cons q rest ih =>
    unfold applyFills
    cases hap : o.applyFill q with
    | ok o' =>
      dsimp only
      obtain ⟨hq1, hq2, hQ, hF, _, hS⟩ := applyFill_ok_props hap
      have hrem : o.remainingQuantity = o.quantity - o.filled_quantity := rfl
      have hle' : o'.filled_quantity ≤ o'.quantity := by omega
      have hstat' : o'.status = .submitted ∨ o'.status = .partialFill
          ∨ o'.status = .filled := by
        rcases hS with h | ⟨h, _⟩ | ⟨h, _⟩
        · rw [h]; exact hstat
        · exact Or.inr (Or.inr h)
        · exact Or.inr (Or.inl h)
      obtain ⟨ihQ, ihF, ihB⟩ := ih o' hstat' hle'
      refine ⟨by rw [ihQ, hQ], ?_, by omega⟩
      simp only [List.sum_cons]
      omega
    | error e =>
      dsimp only
      exact ih o hstat hle

/-- C2 amended.  Fill application: a fill with quantity ≤ 0 or above the
remaining quantity is rejected, leaving the order rows untouched — but the
fill row has already been persisted when the rejection is raised, so the
fills table grows by one row even then.  An accepted fill advances
`filled_quantity` by exactly the fill quantity, never beyond the order
quantity; across any fill sequence the filled quantity equals the sum of
the accepted (applied) fill quantities and stays within the order
quantity. -/
theorem fill_application_amended :
    (∀ (st : Store) (bid : String) (o : Order) (q : ℤ) (p : ℚ),
      st.getOrderByBrokerId bid = some o →
      (o.status = .submitted ∨ o.status = .partialFill) →
      ((q ≤ 0 ∨ o.remainingQuantity < q) →
        (∃ msg, (handleFill st bid q p).1 = .errored msg) ∧
        (handleFill st bid q p).2.orders = st.orders ∧
        (handleFill st bid q p).2.fills.length = st.fills.length + 1) ∧
      (0 < q → q ≤ o.remainingQuantity →
        ∃ o', (handleFill st bid q p).1 = .applied o' ∧
          o'.filled_quantity = o.filled_quantity + q ∧
          o'.quantity = o.quantity ∧ o'.filled_quantity ≤ o.quantity)) ∧
    (∀ (o : Order) (qs : List ℤ),
      o.status = .submitted → o.filled_quantity = 0 → 0 ≤ o.quantity →
      (applyFills o qs).1.filled_quantity = ((applyFills o qs).2).sum ∧
      (applyFills o qs).1.filled_quantity ≤ o.quantity) := by
  constructor
  · intro st bid o q p hfind hstat
    constructor
    · intro hbad
      obtain ⟨msg, he⟩ := applyFill_rejects (o := o) hbad
      unfold handleFill
      rw [hfind]
      dsimp only
      rw [he]
      exact ⟨⟨msg, rfl⟩, rfl, by simp [Store.saveFill]⟩
    · intro h1 h2
      obtain ⟨o', hok, hQ, hF, _⟩ := applyFill_accepts hstat h1 h2
      have hrem : o.remainingQuantity = o.quantity - o.filled_quantity := rfl
      unfold handleFill
      rw [hfind]
      dsimp only
      rw [hok]
      exact ⟨o', rfl, hF, hQ, by omega⟩
  · intro o qs hsub h0 hq
    obtain ⟨_, hsum, hbound⟩ :=
      applyFills_invariant qs o (Or.inl hsub) (by omega)
    exact ⟨by rw [hsum, h0, zero_add], hbound⟩

/-- Witness for C2 amended: the concrete submitted order receiving an
accepted fill of 3 of its 10 shares. -/
theorem fill_application_amended_witness :
    (c2store.getOrderByBrokerId "B1" = some c2order
      ∧ (c2order.status = OrderStatus.submitted ∨ c2order.status = OrderStatus.partialFill)
      ∧ (0 : ℤ) < 3 ∧ (3 : ℤ) ≤ c2order.remainingQuantity) ∧
    (∃ o', (handleFill c2store "B1" 3 100).1 = FillOutcome.applied o' ∧
      o'.filled_quantity = c2order.filled_quantity + 3 ∧
      o'.quantity = c2order.quantity ∧ o'.filled_quantity ≤ c2order.quantity) := by
  refine ⟨⟨rfl, Or.inl rfl, by norm_num, ?_⟩, ?_⟩
  · show (3 : ℤ) ≤ c2order.quantity - c2order.filled_quantity
    norm_num [c2order]
  · exact (fill_application_amended.1 c2store "B1" c2order 3 100 rfl (Or.inl rfl)).2
      (by norm_num)
      (by show (3 : ℤ) ≤ c2order.quantity - c2order.filled_quantity
          norm_num [c2order])

/-! ## Order state machine over the operations the system performs -/

/-- What a successful `mark_submitted` guarantees. -/
theorem markSubmitted_ok {o o' : Order} {bid : String}
    (h : o.markSubmitted bid = .ok o') :
    o' = { o with broker_order_id := some bid, status := .submitted } ∧
    validTransition o.status .submitted = true := by
  unfold Order.markSubmitted at h
  rcases transitionTo_cases { o with broker_order_id := some bid } .submitted with
    ⟨hv, hok⟩ | ⟨_, herr⟩
  · rw [hok] at h
    injection h with h
    exact ⟨h.symm, hv⟩
  · rw [herr] at h; exact absurd h (by simp)

/-- What a successful `mark_rejected` guarantees. -/
theorem markRejected_ok {o o' : Order} {r : String}
    (h : o.markRejected r = .ok o') :
    o' = { o with reject_reason := some r, status := .rejected } ∧
    validTransition o.status .rejected = true := by
  unfold Order.markRejected at h
  rcases transitionTo_cases { o with reject_reason := some r } .rejected with
    ⟨hv, hok⟩ | ⟨_, herr⟩
  · rw [hok] at h
    injection h with h
    exact ⟨h.symm, hv⟩
  · rw [herr] at h; exact absurd h (by simp)

/-- What a successful `mark_canceled` guarantees. -/
theorem markCanceled_ok {o o' : Order}
    (h : o.markCanceled = .ok o') :
    o' = { o with status := .canceled } ∧
    validTransition o.status .canceled = true := by
  unfold Order.markCanceled at h
  rcases transitionTo_cases o .canceled with ⟨hv, hok⟩ | ⟨_, herr⟩
  · rw [hok] at h
    injection h with h
    exact ⟨h.symm, hv⟩
  · rw [herr] at h; exact absurd h (by simp)

/-- The status-affecting operations the system performs on an order:
`mark_submitted`, `mark_rejected`, `mark_canceled`, `apply_fill`, the
reconciler's marking of a missing broker order, and the reconciler's
second-pass `filled_quantity` overwrite. -/
inductive OrderOp where
  | markSub (brokerOrderId : String)
  | markRej (reason : String)
  | markCan
  | fill (quantity : ℤ)
  | reconcileMissing
  | syncFilled (quantity : ℤ)
  deriving DecidableEq, Repr

/-- One operation on an order; `some` is the success path, `none` a raised
exception (methods) or an unsatisfied call-site guard.  `reconcileMissing`
is guarded as at its only call site in `_reconcile_orders`: the order comes
from `get_open_orders` (non-terminal) and has a truthy `broker_order_id`. -/
def opStep (o : Order) : OrderOp → Option Order
  | .markSub bid =>
    match o.markSubmitted bid with
    | .ok o' => some o'
    | .error _ => none
  | .markRej r =>
    match o.markRejected r with
    | .ok o' => some o'
    | .error _ => none
  | .markCan =>
    match o.markCanceled with
    | .ok o' => some o'
    | .error _ => none
  | .fill q =>
    match o.applyFill q with
    | .ok o' => some o'
    | .error _ => none
  | .reconcileMissing =>
    if ¬ o.status.isTerminal ∧ pyStrTruthy o.broker_order_id then
      some (reconcileMarkMissing o)
    else none
  | .syncFilled q => some { o with filled_quantity := q }

/-- Orders reachable by the system: created `PENDING_NEW` with no broker id
(as `process_approved_signal` builds them), then transformed by successful
operations. -/
inductive ReachableOrder : Order → Prop where
  | init (o : Order) (h1 : o.status = .pendingNew) (h2 : o.broker_order_id = none) :
      ReachableOrder o
  | step (o o' : Order) (op : OrderOp) (h : ReachableOrder o)
      (hs : opStep o op = some o') : ReachableOrder o'

/-- System invariant: a reachable `PENDING_NEW` order has no broker order id
(only `mark_submitted` sets one, and it leaves `PENDING_NEW`). -/
theorem reachable_pendingNew_no_broker {o : Order} (h : ReachableOrder o) :
    o.status = .pendingNew → o.broker_order_id = none := by
  induction h with
  | init o h1 h2 => exact fun _ => h2
  | step o o' op h hs ih =>
    intro hpend
    cases op with
    | markSub bid =>
      simp only [opStep] at hs
      split at hs
      · rename_i heq
        obtain ⟨he, _⟩ := markSubmitted_ok heq
        injection hs with hs
        rw [← hs] at hpend
        rw [he] at hpend
        exact absurd hpend (by simp)
      · exact absurd hs (by simp)
    | markRej r =>
      simp only [opStep] at hs
      split at hs
      · rename_i heq
        obtain ⟨he, _⟩ := markRejected_ok heq
        injection hs with hs
        rw [← hs] at hpend
        rw [he] at hpend
        exact absurd hpend (by simp)
      · exact absurd hs (by simp)
    | markCan =>
      simp only [opStep] at hs
      split at hs
      · rename_i heq
        obtain ⟨he, _⟩ := markCanceled_ok heq
        injection hs with hs
        rw [← hs] at hpend
        rw [he] at hpend
        exact absurd hpend (by simp)
      · exact absurd hs (by simp)
    | fill q =>
      simp only [opStep] at hs
      split at hs
      · rename_i heq
        obtain ⟨_, _, _, _, hB, hS⟩ := applyFill_ok_props heq
        injection hs with hs
        subst hs
        rcases hS with h1 | ⟨h1, _⟩ | ⟨h1, _⟩
        · rw [hB]
          exact ih (h1 ▸ hpend)
        · rw [h1] at hpend; exact absurd hpend (by simp)
        · rw [h1] at hpend; exact absurd hpend (by simp)
      · exact absurd hs (by simp)
    | reconcileMissing =>
      simp only [opStep] at hs
      split at hs
      · injection hs with hs
        subst hs
        unfold reconcileMarkMissing at hpend
        split at hpend <;> exact absurd hpend (by simp)
      · exact absurd hs (by simp)
    | syncFilled q =>
      simp only [opStep] at hs
      injection hs with hs
      subst hs
      exact ih hpend

/-- C3.  Order state machine: on any reachable order, every successful
operation either leaves the status unchanged or moves it along a transition
of the `VALID_TRANSITIONS` table; `transition_to` succeeds exactly on the
table's transitions (changing only the status) and otherwise fails with the
invalid-transition error, leaving the order unchanged. -/
theorem order_state_machine (o : Order) (h : ReachableOrder o) :
    (∀ (op : OrderOp) (o' : Order), opStep o op = some o' →
      o'.status = o.status ∨ validTransition o.status o'.status = true) ∧
    (∀ s : OrderStatus, validTransition o.status s = false →
      o.transitionTo s
        = .error ("Invalid transition: " ++ o.status.value ++ " -> " ++ s.value)) ∧
    (∀ s : OrderStatus, validTransition o.status s = true →
      o.transitionTo s = .ok { o with status := s }) := by
  refine ⟨?_, ?_, ?_⟩
  · intro op o' hs
    cases op with
    | markSub bid =>
      simp only [opStep] at hs
      split at hs
      · rename_i heq
        obtain ⟨he, hv⟩ := markSubmitted_ok heq
        injection hs with hs
        rw [← hs, he]
        exact Or.inr hv
      · exact absurd hs (by simp)
    | markRej r =>
      simp only [opStep] at hs
      split at hs
      · rename_i heq
        obtain ⟨he, hv⟩ := markRejected_ok heq
        injection hs with hs
        rw [← hs, he]
        exact Or.inr hv
      · exact absurd hs (by simp)
    | markCan =>
      simp only [opStep] at hs
      split at hs
      · rename_i heq
        obtain ⟨he, hv⟩ := markCanceled_ok heq
        injection hs with hs
        rw [← hs, he]
        exact Or.inr hv
      · exact absurd hs (by simp)
    | fill q =>
      simp only [opStep] at hs
      split at hs
      · rename_i heq
        obtain ⟨_, _, _, _, _, hS⟩ := applyFill_ok_props heq
        injection hs with hs
        subst hs
        rcases hS with h1 | ⟨h1, hv⟩ | ⟨h1, hv⟩
        · exact Or.inl h1
        · exact Or.inr (h1 ▸ hv)
        · exact Or.inr (h1 ▸ hv)
      · exact absurd hs (by simp)
    | reconcileMissing =>
      simp only [opStep] at hs
      split at hs
      · rename_i hguard
        injection hs with hs
        subst hs
        obtain ⟨hterm, htruthy⟩ := hguard
        have hnotpend : o.status ≠ .pendingNew := by
          intro hp
          rw [reachable_pendingNew_no_broker h hp] at htruthy
          exact absurd htruthy (by simp [pyStrTruthy])
        unfold reconcileMarkMissing
        cases hst : o.status <;> simp_all [OrderStatus.isTerminal] <;>
          split <;> simp [validTransition]
      · exact absurd hs (by simp)
    | syncFilled q =>
      simp only [opStep] at hs
      injection hs with hs
      subst hs
      exact Or.inl rfl
  · intro s hbad
    rcases transitionTo_cases o s with ⟨hv, _⟩ | ⟨_, he⟩
    · rw [hv] at hbad; exact absurd hbad (by simp)
    · exact he
  · intro s hgood
    rcases transitionTo_cases o s with ⟨_, hok⟩ | ⟨hv, _⟩
    · exact hok
    · rw [hv] at hgood; exact absurd hgood (by simp)

/-- A freshly created order, as `process_approved_signal` builds it. -/
def c3order : Order :=
  { order_id := "ORD-C3", signal_id := "SIG-C3", symbol := "X", side := "BUY"
    order_type := "MARKET", quantity := 5 }

/-- Witness for C3: the fresh `PENDING_NEW` order is reachable, and marking
it submitted is a table transition. -/
theorem order_state_machine_witness :
    (∃ o', opStep c3order (OrderOp.markSub "B1") = some o' ∧
      (o'.status = c3order.status ∨ validTransition c3order.status o'.status = true)) := by
  refine ⟨{ c3order with broker_order_id := some "B1", status := .submitted }, rfl, ?_⟩
  exact (order_state_machine c3order (ReachableOrder.init c3order rfl rfl)).1
    (OrderOp.markSub "B1") _ rfl

/-! ## Positive-position invariant of the portfolio tracker -/

/-- Membership after a dict upsert: the new value, or an untouched entry of
a different symbol. -/
theorem Portfolio.mem_setPosition {pf : Portfolio} {p q : PortfolioPosition}
    (h : q ∈ (pf.setPosition p).positions) :
    q = p ∨ (q ∈ pf.positions ∧ q.symbol ≠ p.symbol) := by
  unfold Portfolio.setPosition at h
  split at h
  · simp only [List.mem_map] at h
    obtain ⟨e, he, heq⟩ := h
    by_cases hs : e.symbol = p.symbol
    · rw [if_pos hs] at heq
      exact Or.inl heq.symm
    · rw [if_neg hs] at heq
      exact Or.inr ⟨heq ▸ he, heq ▸ hs⟩
  · rename_i hany
    rcases List.mem_append.mp h with h | h
    · refine Or.inr ⟨h, fun hs => ?_⟩
      exact hany (List.any_eq_true.mpr ⟨q, h, by simp [hs]⟩)
    · exact Or.inl (by simpa using h)

/-- Membership after a positions-table upsert. -/
theorem PositionsStore.mem_save {ps : PositionsStore} {sym : String} {qty : ℤ}
    {avg : ℚ} {r : String × ℤ × ℚ} (h : r ∈ (ps.save sym qty avg).rows) :
    r = (sym, qty, avg) ∨ r ∈ ps.rows := by
  unfold PositionsStore.save at h
  split at h
  · simp only [List.mem_map] at h
    obtain ⟨e, he, heq⟩ := h
    by_cases hs : e.1 = sym
    · rw [if_pos hs] at heq
      exact Or.inl heq.symm
    · rw [if_neg hs] at heq
      exact Or.inr (heq ▸ he)
  · rcases List.mem_append.mp h with h | h
    · exact Or.inr h
    · exact Or.inl (by simpa using h)

/-- Deletion only removes rows. -/
theorem PositionsStore.mem_delete {ps : PositionsStore} {sym : String}
    {r : String × ℤ × ℚ} (h : r ∈ (ps.delete sym).rows) : r ∈ ps.rows :=
  List.mem_of_mem_filter h

/-- A found position is a member of the dict. -/
theorem Portfolio.getPosition_mem {pf : Portfolio} {s : String}
    {p : PortfolioPosition} (h : pf.getPosition s = some p) : p ∈ pf.positions :=
  List.mem_of_find?_eq_some h

/-- Invariant of `sync_with_broker`'s upsert loop: every in-memory entry is
either positive or an untouched original entry for a symbol the processed
broker positions do not mention; every store row is either positive or an
original row. -/
theorem syncUpsert_fold_props (rest : List BrokerPosition)
    (acc : Portfolio × PositionsStore) (hb : ∀ b ∈ rest, 0 < b.quantity) :
    (∀ pos ∈ (rest.foldl syncUpsert acc).1.positions,
      0 < pos.quantity
        ∨ (pos ∈ acc.1.positions ∧ pos.symbol ∉ rest.map (fun b => b.symbol))) ∧
    (∀ r ∈ (rest.foldl syncUpsert acc).2.rows, 0 < r.2.1 ∨ r ∈ acc.2.rows) := by
  induction rest generalizing acc with
  | nil => exact ⟨fun pos hm => Or.inr ⟨hm, by simp⟩, fun r hm => Or.inr hm⟩
  | cons b rest' ih =>
    have hb' : ∀ x ∈ rest', 0 < x.quantity := fun x hx => hb x (List.mem_cons_of_mem _ hx)
    obtain ⟨ihm, ihs⟩ := ih (syncUpsert acc b) hb'
    constructor
    · intro pos hm
      rcases ihm pos hm with hpos | ⟨hmem, hnot⟩
      · exact Or.inl hpos
      · rcases Portfolio.mem_setPosition hmem with he | ⟨hold, hne⟩
        · exact Or.inl (he ▸ hb b (List.mem_cons_self _ _))
        · exact Or.inr ⟨hold, by simpa using ⟨hne, by simpa using hnot⟩⟩
    · intro r hm
      rcases ihs r hm with hpos | hmem
      · exact Or.inl hpos
      · rcases PositionsStore.mem_save hmem with he | hold
        · exact Or.inl (he ▸ hb b (List.mem_cons_self _ _))
        · exact Or.inr hold

/-- Rows surviving a sequence of deletions were already present. -/
theorem PositionsStore.mem_delete_fold {syms : List String} {st : PositionsStore}
    {r : String × ℤ × ℚ}
    (h : r ∈ (syms.foldl (fun acc s => acc.delete s) st).rows) : r ∈ st.rows := by
  induction syms generalizing st with
  | nil => exact h
  | cons s rest ih => exact PositionsStore.mem_delete (ih h)

/-- Counterexample to C9 as stated: `sync_with_broker` copies broker
positions verbatim, so a broker-reported position with quantity 0 ends up
held in the in-memory map (and the store) with quantity 0, not deleted. -/
theorem sync_zero_quantity_counterexample :
    (syncWithBroker ⟨{}, {}⟩ [{ symbol := "A", quantity := 0, avg_price := 1 }]
        { total_equity := 0, available_cash := 0 }).portfolio.positions
      = [{ symbol := "A", quantity := 0, avg_price := 1 }] ∧
    (syncWithBroker ⟨{}, {}⟩ [{ symbol := "A", quantity := 0, avg_price := 1 }]
        { total_equity := 0, available_cash := 0 }).store.rows = [("A", 0, 1)] ∧
    ¬ (0 : ℤ) < 0 := by
  refine ⟨rfl, rfl, by norm_num⟩

/-- The persistence tail of `_on_fill` preserves positivity of the store
rows when the in-memory positions are positive. -/
theorem trackerPersist_props (ts : TrackerState) (pf' : Portfolio) (symbol : String)
    (hpf' : ∀ pos ∈ pf'.positions, 0 < pos.quantity)
    (hst : ∀ r ∈ ts.store.rows, 0 < r.2.1) :
    (∀ pos ∈ (trackerPersist ts pf' symbol).portfolio.positions, 0 < pos.quantity) ∧
    (∀ r ∈ (trackerPersist ts pf' symbol).store.rows, 0 < r.2.1) := by
  unfold trackerPersist
  cases hfind : pf'.getPosition symbol with
  | none => exact ⟨hpf', hst⟩
  | some pos =>
    refine ⟨hpf', fun r hm => ?_⟩
    rcases PositionsStore.mem_save hm with he | hold
    · rw [he]; exact hpf' pos (Portfolio.getPosition_mem hfind)
    · exact hst r hold

/-- C9 amended.  Positive positions: processing a fill event (whose quantity
is positive, as every OMS-published fill is) preserves strict positivity of
every position in memory and in the store — in particular a SELL that
reaches 0 or below deletes the position from both, and a SELL with no
position creates nothing.  `sync_with_broker` preserves positivity provided
every broker-reported position has positive quantity; it copies broker
quantities verbatim, so a non-positive broker row would be held as-is. -/
theorem positive_positions_amended :
    (∀ (ts : TrackerState) (orderInfo : Option (String × String)) (q : ℤ) (p : ℚ),
      0 < q →
      (∀ pos ∈ ts.portfolio.positions, 0 < pos.quantity) →
      (∀ r ∈ ts.store.rows, 0 < r.2.1) →
      (∀ pos ∈ (trackerOnFill ts orderInfo q p).portfolio.positions, 0 < pos.quantity) ∧
      (∀ r ∈ (trackerOnFill ts orderInfo q p).store.rows, 0 < r.2.1)) ∧
    (∀ (ts : TrackerState) (positions : List BrokerPosition) (balance : Balance),
      (∀ b ∈ positions, 0 < b.quantity) →
      (∀ r ∈ ts.store.rows, 0 < r.2.1) →
      (∀ pos ∈ (syncWithBroker ts positions balance).portfolio.positions,
        0 < pos.quantity) ∧
      (∀ r ∈ (syncWithBroker ts positions balance).store.rows, 0 < r.2.1)) := by
  constructor
  · intro ts orderInfo q p hq hmem hstore
    cases orderInfo with
    | none => exact ⟨hmem, hstore⟩
    | some info =>
      obtain ⟨symbol, side⟩ := info
      simp only [trackerOnFill]
      by_cases hbuy : side = "BUY"
      · rw [if_pos hbuy]
        cases hfind : ts.portfolio.getPosition symbol with
        | some cp =>
          have hcp : 0 < cp.quantity := hmem cp (Portfolio.getPosition_mem hfind)
          dsimp only
          refine trackerPersist_props _ _ _ ?_ hstore
          intro pos hm
          rcases Portfolio.mem_setPosition hm with he | ⟨hold, _⟩
          · rw [he]; dsimp only; omega
          · exact hmem pos hold
        | none =>
          dsimp only
          refine trackerPersist_props _ _ _ ?_ hstore
          intro pos hm
          rcases Portfolio.mem_setPosition hm with he | ⟨hold, _⟩
          · rw [he]; exact hq
          · exact hmem pos hold
      · rw [if_neg hbuy]
        by_cases hsell : side = "SELL"
        · rw [if_pos hsell]
          cases hfind : ts.portfolio.getPosition symbol with
          | some cp =>
            dsimp only
            by_cases hzero : cp.quantity - q ≤ 0
            · rw [if_pos hzero]
              exact ⟨fun pos hm => hmem pos (List.mem_of_mem_filter hm),
                fun r hm => hstore r (PositionsStore.mem_delete hm)⟩
            · rw [if_neg hzero]
              refine trackerPersist_props _ _ _ ?_ hstore
              intro pos hm
              rcases Portfolio.mem_setPosition hm with he | ⟨hold, _⟩
              · rw [he]; dsimp only; omega
              · exact hmem pos hold
          | none =>
            dsimp only
            exact trackerPersist_props _ _ _ hmem hstore
        · rw [if_neg hsell]
          dsimp only
          exact trackerPersist_props _ _ _ hmem hstore
  · intro ts positions balance hb hstore
    simp only [syncWithBroker]
    obtain ⟨hm, hs⟩ := syncUpsert_fold_props positions
      ({ ts.portfolio with cash := balance.available_cash
                           total_equity := balance.total_equity }, ts.store) hb
    constructor
    · intro pos hmem
      simp only [List.mem_filter] at hmem
      obtain ⟨hmem, hsym⟩ := hmem
      rcases hm pos hmem with hpos | ⟨_, hnot⟩
      · exact hpos
      · exact absurd (by simpa using hsym) hnot
    · intro r hmem
      rcases hs r (PositionsStore.mem_delete_fold hmem) with hpos | hold
      · exact hpos
      · exact hstore r hold

/-- Concrete tracker state for the C9 witness: one position of 5 shares,
mirrored in the store. -/
def c9ts : TrackerState :=
  { portfolio := { positions := [{ symbol := "A", quantity := 5, avg_price := 10 }] }
    store := { rows := [("A", 5, 10)] } }

/-- Witness for C9 amended: a SELL fill of 2 of the 5 held shares keeps
every position and store row strictly positive. -/
theorem positive_positions_amended_witness :
    ((0 : ℤ) < 2 ∧ (∀ pos ∈ c9ts.portfolio.positions, 0 < pos.quantity)
      ∧ (∀ r ∈ c9ts.store.rows, 0 < r.2.1)) ∧
    ((∀ pos ∈ (trackerOnFill c9ts (some ("A", "SELL")) 2 9).portfolio.positions,
        0 < pos.quantity) ∧
     (∀ r ∈ (trackerOnFill c9ts (some ("A", "SELL")) 2 9).store.rows, 0 < r.2.1)) := by
  have h1 : (0 : ℤ) < 2 := by norm_num
  have h2 : ∀ pos ∈ c9ts.portfolio.positions, 0 < pos.quantity := by
    intro pos hm
    simp only [c9ts, List.mem_singleton] at hm
    rw [hm]
    norm_num
  have h3 : ∀ r ∈ c9ts.store.rows, 0 < r.2.1 := by
    intro r hm
    simp only [c9ts, List.mem_singleton] at hm
    rw [hm]
    norm_num
  exact ⟨⟨h1, h2, h3⟩, positive_positions_amended.1 c9ts (some ("A", "SELL")) 2 9 h1 h2 h3⟩

/-! ## Candle invariants -/

/-- The OHLCV invariant of §3: `high ≥ max(open, close)`,
`min(open, close) ≥ low`, and non-negative volume. -/
def Candle.ohlcInv (c : Candle) : Prop :=
  c.low ≤ min c.open_ c.close ∧ max c.open_ c.close ≤ c.high ∧ 0 ≤ c.volume

/-- Alignment of an open time to a timeframe boundary: seconds and
microseconds are zero and, for intraday timeframes, the minute-of-day is a
multiple of the timeframe (`open_time mod timeframe = 0`); day-sized
timeframes are midnight-aligned. -/
def alignedOpenTime (t : PyTime) (tf : String) : Prop :=
  t.second = 0 ∧ t.microsecond = 0 ∧
    (if 1440 ≤ timeframeMinutes tf then t.hour = 0 ∧ t.minute = 0
     else (t.hour * 60 + t.minute) % timeframeMinutes tf = 0)

/-- A candle satisfying every §3 invariant the claim lists. -/
def GoodCandle (c : Candle) : Prop :=
  c.ohlcInv ∧ alignedOpenTime c.open_time c.timeframe

/-- Every timeframe maps to a positive number of minutes (the `.get`
default is 1). -/
theorem timeframeMinutes_pos (tf : String) : 0 < timeframeMinutes tf := by
  unfold timeframeMinutes
  split <;> norm_num

/-- `get_candle_open_time` always lands on a timeframe boundary. -/
theorem getCandleOpenTime_aligned (t : PyTime) (tf : String) :
    alignedOpenTime (getCandleOpenTime t tf) tf := by
  unfold getCandleOpenTime alignedOpenTime
  by_cases h : 1440 ≤ timeframeMinutes tf
  · rw [if_pos h]
    exact ⟨rfl, rfl, by rw [if_pos h]; exact ⟨rfl, rfl⟩⟩
  · rw [if_neg h]
    refine ⟨rfl, rfl, ?_⟩
    rw [if_neg h]
    dsimp only
    rw [Nat.div_add_mod']
    exact Nat.mul_mod_left _ _

/-- `Candle.from_tick` produces a good candle at any boundary-aligned open
time, given a valid tick. -/
theorem fromTick_good {t : Tick} (hv : t.valid) (tf : String) (ot : PyTime)
    (hot : alignedOpenTime ot tf) : GoodCandle (Candle.fromTick t tf ot) := by
  refine ⟨⟨?_, ?_, hv.2⟩, hot⟩
  · simp [Candle.fromTick]
  · simp [Candle.fromTick]

/-- `Candle.update_with_tick` succeeds on a matching symbol and preserves
identity fields and the OHLCV invariant. -/
theorem updateWithTick_ok {c : Candle} {t : Tick} (hsym : t.symbol = c.symbol)
    (hv : t.valid) (hc : c.ohlcInv) :
    ∃ c', c.updateWithTick t = .ok c' ∧ c'.symbol = c.symbol ∧
      c'.timeframe = c.timeframe ∧ c'.open_time = c.open_time ∧ c'.ohlcInv := by
  obtain ⟨hlow, hhigh, hvol⟩ := hc
  simp only [le_min_iff] at hlow
  simp only [max_le_iff] at hhigh
  have hv2 : (0 : ℤ) ≤ t.volume := hv.2
  unfold Candle.updateWithTick
  rw [if_neg (by simp [hsym])]
  dsimp only
  split_ifs with h1 h2 h3 <;>
    refine ⟨_, rfl, rfl, rfl, rfl, ?_, ?_, ?_⟩ <;>
      simp only [le_min_iff, max_le_iff] <;>
      first
        | omega
        | (constructor <;> linarith)

/-- Invariant of a per-symbol dict of in-progress candles: every entry's
candle carries that symbol, the timeframe it is keyed under, and the §3
invariants. -/
def InnerInv (sym : String) (inner : List (String × Candle)) : Prop :=
  ∀ e ∈ inner, e.2.symbol = sym ∧ e.2.timeframe = e.1 ∧ GoodCandle e.2

/-- Invariant of the whole builder state. -/
def BuilderInv (b : CandleBuilder) : Prop :=
  ∀ se ∈ b.current, InnerInv se.1 se.2

/-- A found in-progress candle is an entry of the dict. -/
theorem innerGet_mem {inner : List (String × Candle)} {tf : String} {c : Candle}
    (h : innerGet inner tf = some c) : (tf, c) ∈ inner := by
  unfold innerGet at h
  cases hf : inner.find? (fun e => e.1 = tf) with
  | none => rw [hf] at h; exact absurd h (by simp)
  | some e =>
    rw [hf] at h
    simp only [Option.map_some'] at h
    injection h with h
    have hm := List.mem_of_find?_eq_some hf
    have hp : e.1 = tf := by simpa using List.find?_some hf
    have he : e = (tf, c) := by
      obtain ⟨e1, e2⟩ := e
      simp_all
    exact he ▸ hm

/-- Membership after an in-progress-candle upsert. -/
theorem innerSet_mem {inner : List (String × Candle)} {tf : String} {c : Candle}
    {e : String × Candle} (h : e ∈ innerSet inner tf c) :
    e = (tf, c) ∨ e ∈ inner := by
  unfold innerSet at h
  split at h
  · simp only [List.mem_map] at h
    obtain ⟨x, hx, hxe⟩ := h
    by_cases hs : x.1 = tf
    · rw [if_pos hs] at hxe; exact Or.inl hxe.symm
    · rw [if_neg hs] at hxe; exact Or.inr (hxe ▸ hx)
  · rcases List.mem_append.mp h with h | h
    · exact Or.inr h
    · exact Or.inl (by simpa using h)

/-- The timeframe loop of `process_tick` never raises on an invariant dict,
preserves the invariant, and closes only good candles. -/
theorem processTimeframes_props (tick : Tick) (hv : tick.valid) (tfs : List String) :
    ∀ inner, InnerInv tick.symbol inner →
    ∃ closed inner', processTimeframes tick tfs inner = .ok (closed, inner') ∧
      InnerInv tick.symbol inner' ∧ ∀ c ∈ closed, GoodCandle c := by
  induction tfs with
  | nil => exact fun inner hinv => ⟨[], inner, rfl, hinv, by simp⟩
  | cons tf rest ih =>
    intro inner hinv
    unfold processTimeframes
    dsimp only
    have hfresh : InnerInv tick.symbol
        (innerSet inner tf
          (Candle.fromTick tick tf (getCandleOpenTime tick.timestamp tf))) := by
      intro e he
      rcases innerSet_mem he with he | he
      · subst he
        exact ⟨rfl, rfl, fromTick_good hv tf _ (getCandleOpenTime_aligned _ _)⟩
      · exact hinv e he
    cases hg : innerGet inner tf with
    | none => exact ih _ hfresh
    | some candle =>
      dsimp only
      obtain ⟨hsym, htf, hgood⟩ := hinv (tf, candle) (innerGet_mem hg)
      by_cases hot : candle.open_time ≠ getCandleOpenTime tick.timestamp tf
      · rw [if_pos hot]
        obtain ⟨closed, inner', heq, hinv', hclosed⟩ := ih _ hfresh
        rw [heq]
        refine ⟨candle :: closed, inner', rfl, hinv', fun c hc => ?_⟩
        rcases List.mem_cons.mp hc with hc | hc
        · exact hc ▸ hgood
        · exact hclosed c hc
      · rw [if_neg hot]
        obtain ⟨c', hok, hsym', htf', hot', hinv'⟩ :=
          updateWithTick_ok (t := tick) (c := candle) hsym.symm hv hgood.1
        rw [hok]
        refine ih _ ?_
        intro e he
        rcases innerSet_mem he with he | he
        · subst he
          refine ⟨by rw [hsym', hsym], by rw [htf', htf], hinv', ?_⟩
          show alignedOpenTime c'.open_time c'.timeframe
          rw [hot', htf']
          exact hgood.2
        · exact hinv e he

/-- `process_tick` never raises on an invariant builder, preserves the
invariant, and closes only good candles. -/
theorem processTick_props (b : CandleBuilder) (tick : Tick) (hv : tick.valid)
    (hb : BuilderInv b) :
    ∃ closed b', b.processTick tick = .ok (closed, b') ∧ BuilderInv b' ∧
      ∀ c ∈ closed, GoodCandle c := by
  unfold CandleBuilder.processTick
  dsimp only
  have hinner : InnerInv tick.symbol
      (((b.current.find? (fun e => e.1 = tick.symbol)).map (fun e => e.2)).getD []) := by
    cases hf : b.current.find? (fun e => e.1 = tick.symbol) with
    | none => intro e he; simp at he
    | some se =>
      have hm := List.mem_of_find?_eq_some hf
      have hp : se.1 = tick.symbol := by simpa using List.find?_some hf
      simp only [Option.map_some', Option.getD_some]
      exact hp ▸ hb se hm
  obtain ⟨closed, inner', heq, hinv', hclosed⟩ :=
    processTimeframes_props tick hv b.timeframes _ hinner
  rw [heq]
  refine ⟨closed, _, rfl, ?_, hclosed⟩
  intro se hse
  dsimp only at hse
  split at hse
  · simp only [List.mem_map] at hse
    obtain ⟨x, hx, hxe⟩ := hse
    by_cases hs : x.1 = tick.symbol
    · rw [if_pos hs] at hxe
      rw [← hxe]
      exact hinv'
    · rw [if_neg hs] at hxe
      exact hxe ▸ hb x hx
  · rcases List.mem_append.mp hse with h | h
    · exact hb se h
    · have : se = (tick.symbol, inner') := by simpa using h
      rw [this]
      exact hinv'

/-- Feeding a tick sequence to an invariant builder never raises, preserves
the invariant, and closes only good candles. -/
theorem processTicks_props (ticks : List Tick) (b : CandleBuilder)
    (hv : ∀ t ∈ ticks, t.valid) (hb : BuilderInv b) :
    ∃ closed b', b.processTicks ticks = .ok (closed, b') ∧ BuilderInv b' ∧
      ∀ c ∈ closed, GoodCandle c := by
  induction ticks generalizing b with
  | nil => exact ⟨[], b, rfl, hb, by simp⟩
  | cons t rest ih =>
    obtain ⟨closed, b', heq, hb', hclosed⟩ :=
      processTick_props b t (hv t (List.mem_cons_self _ _)) hb
    obtain ⟨closedRest, b'', heqR, hb'', hclosedR⟩ :=
      ih b' (fun x hx => hv x (List.mem_cons_of_mem _ hx)) hb'
    refine ⟨closed ++ closedRest, b'', ?_, hb'', fun c hc => ?_⟩
    · unfold CandleBuilder.processTicks
      rw [heq]
      dsimp only
      rw [heqR]
    · rcases List.mem_append.mp hc with hc | hc
      · exact hclosed c hc
      · exact hclosedR c hc

/-- Flushed candles all come from the builder state. -/
theorem mem_flushAll {b : CandleBuilder} {c : Candle} (h : c ∈ b.flushAll.1) :
    ∃ e ∈ b.current, ∃ tc ∈ e.2, tc.2 = c := by
  unfold CandleBuilder.flushAll at h
  dsimp only at h
  suffices haux : ∀ (l : List (String × List (String × Candle))) (acc : List Candle),
      c ∈ l.foldl (fun a e => a ++ e.2.map (fun tc => tc.2)) acc →
      c ∈ acc ∨ ∃ e ∈ l, ∃ tc ∈ e.2, tc.2 = c by
    rcases haux b.current [] h with hacc | hfound
    · simp at hacc
    · exact hfound
  intro l
  induction l with
  | nil => exact fun acc h => Or.inl h
  | cons e rest ihl =>
    intro acc h
    rcases ihl _ h with hacc | ⟨e', he', htc⟩
    · rcases List.mem_append.mp hacc with h1 | h2
      · exact Or.inl h1
      · refine Or.inr ⟨e, List.mem_cons_self _ _, ?_⟩
        simpa using h2
    · exact Or.inr ⟨e', List.mem_cons_of_mem _ he', htc⟩

/-- C8.  Candle invariants: for every valid tick sequence fed to a fresh
aggregator, processing never raises, every candle it closes along the way
satisfies `high ≥ max(open, close)`, `min(open, close) ≥ low`, volume ≥ 0
and boundary-aligned `open_time`; and so does every in-progress candle left
in the builder (equivalently, everything `flush_all` would emit). -/
theorem candle_invariants (timeframes : List String) (ticks : List Tick)
    (hv : ∀ t ∈ ticks, t.valid) :
    ∃ closed b',
      CandleBuilder.processTicks ⟨timeframes, []⟩ ticks = .ok (closed, b') ∧
      (∀ c ∈ closed, GoodCandle c) ∧
      (∀ se ∈ b'.current, ∀ tc ∈ se.2, GoodCandle tc.2) ∧
      (∀ c ∈ b'.flushAll.1, GoodCandle c) := by
  obtain ⟨closed, b', heq, hb', hclosed⟩ :=
    processTicks_props ticks ⟨timeframes, []⟩ hv (fun se hse => by simp at hse)
  refine ⟨closed, b', heq, hclosed, fun se hse tc htc => (hb' se hse tc htc).2.2,
    fun c hc => ?_⟩
  obtain ⟨e, he, tc, htc, hvc⟩ := mem_flushAll hc
  exact hvc ▸ (hb' e he tc htc).2.2

/-- Witness for C8: two concrete valid ticks in successive minutes close a
1-minute candle and leave good in-progress candles. -/
theorem candle_invariants_witness :
    (∀ t ∈ [Tick.mk "A" 10 1 ⟨0, 9, 0, 30, 0⟩, Tick.mk "A" 12 2 ⟨0, 9, 1, 0, 0⟩],
      t.valid) ∧
    (∃ closed b',
      CandleBuilder.processTicks ⟨["1m", "5m"], []⟩
          [Tick.mk "A" 10 1 ⟨0, 9, 0, 30, 0⟩, Tick.mk "A" 12 2 ⟨0, 9, 1, 0, 0⟩]
        = .ok (closed, b') ∧
      (∀ c ∈ closed, GoodCandle c) ∧
      (∀ se ∈ b'.current, ∀ tc ∈ se.2, GoodCandle tc.2) ∧
      (∀ c ∈ b'.flushAll.1, GoodCandle c)) := by
  have hv : ∀ t ∈ [Tick.mk "A" 10 1 ⟨0, 9, 0, 30, 0⟩, Tick.mk "A" 12 2 ⟨0, 9, 1, 0, 0⟩],
      t.valid := by
    intro t ht
    rcases List.mem_cons.mp ht with h | h
    · rw [h]; exact ⟨by norm_num, by norm_num⟩
    · have : t = Tick.mk "A" 12 2 ⟨0, 9, 1, 0, 0⟩ := by simpa using h
      rw [this]; exact ⟨by norm_num, by norm_num⟩
  exact ⟨hv, candle_invariants ["1m", "5m"] _ hv⟩

/-! ## Reconciler contract -/

/-- Field bookkeeping of the reconciler's direct status assignment. -/
theorem reconcileMarkMissing_fields (o : Order) :
    (reconcileMarkMissing o).order_id = o.order_id ∧
    (reconcileMarkMissing o).broker_order_id = o.broker_order_id ∧
    (reconcileMarkMissing o).status
      = (if 0 < o.filled_quantity then OrderStatus.filled else OrderStatus.canceled) ∧
    (reconcileMarkMissing o).status.isTerminal = true := by
  unfold reconcileMarkMissing
  by_cases h : 0 < o.filled_quantity
  · rw [if_pos h]; exact ⟨rfl, rfl, by rw [if_pos h], rfl⟩
  · rw [if_neg h]; exact ⟨rfl, rfl, by rw [if_neg h], rfl⟩

/-- `update_order` keeps the row ids pointwise. -/
theorem updateOrder_ids (st : Store) (o' : Order) :
    (st.updateOrder o').orders.map (fun x => x.order_id)
      = st.orders.map (fun x => x.order_id) := by
  unfold Store.updateOrder
  dsimp only
  rw [List.map_map]
  refine List.map_congr_left ?_
  intro x _
  by_cases h : x.order_id = o'.order_id
  · simp [h]
  · simp [h]

/-- Membership after `update_order`: the written row or an untouched row of
a different id. -/
theorem mem_updateOrder {st : Store} {o' row : Order}
    (h : row ∈ (st.updateOrder o').orders) :
    row = o' ∨ (row ∈ st.orders ∧ row.order_id ≠ o'.order_id) := by
  unfold Store.updateOrder at h
  dsimp only at h
  simp only [List.mem_map] at h
  obtain ⟨x, hx, hxe⟩ := h
  by_cases hs : x.order_id = o'.order_id
  · rw [if_pos hs] at hxe; exact Or.inl hxe.symm
  · rw [if_neg hs] at hxe
    exact Or.inr ⟨hxe ▸ hx, hxe ▸ hs⟩

/-- Rows with a different id survive `update_order` unchanged. -/
theorem mem_updateOrder_of_ne {st : Store} {o' row : Order}
    (h : row ∈ st.orders) (hne : row.order_id ≠ o'.order_id) :
    row ∈ (st.updateOrder o').orders := by
  unfold Store.updateOrder
  dsimp only
  refine List.mem_map.mpr ⟨row, h, ?_⟩
  rw [if_neg hne]

/-- `update_order` places the row whenever some row with that id exists. -/
theorem mem_updateOrder_target {st : Store} {o' : Order}
    (hex : ∃ row ∈ st.orders, row.order_id = o'.order_id) :
    o' ∈ (st.updateOrder o').orders := by
  obtain ⟨row, hm, hid⟩ := hex
  unfold Store.updateOrder
  dsimp only
  exact List.mem_map.mpr ⟨row, hm, by rw [if_pos hid]⟩

/-- Distinct ids make the row with a given id unique. -/
theorem same_id_eq {l : List Order}
    (hp : l.Pairwise (fun a b => a.order_id ≠ b.order_id)) {a b : Order}
    (ha : a ∈ l) (hb : b ∈ l) (hid : a.order_id = b.order_id) : a = b := by
  induction l with
  | nil => simp at ha
  | cons x rest ihl =>
    obtain ⟨hx, hrest⟩ := List.pairwise_cons.mp hp
    rcases List.mem_cons.mp ha with ha' | ha' <;> rcases List.mem_cons.mp hb with hb' | hb'
    · rw [ha', hb']
    · exact absurd (ha' ▸ hid) (hx b hb')
    · exact absurd (hb' ▸ hid.symm) (hx a ha')
    · exact ihl hrest ha' hb'

/-- `get_order_by_broker_id` returns a member bearing that broker id. -/
theorem getOrderByBrokerId_props {st : Store} {bid : String} {row : Order}
    (h : st.getOrderByBrokerId bid = some row) :
    row ∈ st.orders ∧ row.broker_order_id = some bid := by
  unfold Store.getOrderByBrokerId at h
  exact ⟨List.mem_of_find?_eq_some h, by simpa using List.find?_some h⟩

/-- A row is resolved against the broker's open-order set when it is
terminal, has no truthy broker id, or its broker id is in the set (what the
reconciler contract promises of every surviving row). -/
def ResolvedP (brokerIds : List String) (row : Order) : Prop :=
  row.status.isTerminal = false → pyStrTruthy row.broker_order_id = true →
    brokerIds.contains ((row.broker_order_id).getD "") = true

/-- The rows the first reconciliation pass must mark: non-terminal, with a
truthy broker id absent from the broker's open-order set. -/
def CondP (brokerIds : List String) (o : Order) : Prop :=
  o.status.isTerminal = false ∧ pyStrTruthy o.broker_order_id = true ∧
    brokerIds.contains ((o.broker_order_id).getD "") = false

/-- Invariant of the first reconciliation pass: ids are preserved, every row
ends resolved, and every `CondP` order of the source list ends marked
`FILLED`/`CANCELED` according to its fills. -/
theorem reconcileMark_fold (brokerIds : List String) (src : List Order) :
    ∀ (todo : List Order) (stacc : Store) (n : ℕ),
    todo.Pairwise (fun a b => a.order_id ≠ b.order_id) →
    (∀ t ∈ todo, ∃ row ∈ stacc.orders, row.order_id = t.order_id) →
    (∀ row ∈ stacc.orders, ResolvedP brokerIds row ∨ row ∈ todo) →
    (∀ o ∈ src, CondP brokerIds o →
      ((∃ row ∈ stacc.orders, row.order_id = o.order_id ∧
          row.broker_order_id = o.broker_order_id ∧
          row.status = (if 0 < o.filled_quantity then OrderStatus.filled
            else OrderStatus.canceled)) ∧
        o.order_id ∉ todo.map (fun t => t.order_id)) ∨ o ∈ todo) →
    ((todo.foldl (reconcileMarkStep brokerIds) (stacc, n)).1.orders.map
        (fun x => x.order_id) = stacc.orders.map (fun x => x.order_id)) ∧
    (∀ row ∈ (todo.foldl (reconcileMarkStep brokerIds) (stacc, n)).1.orders,
      ResolvedP brokerIds row) ∧
    (∀ o ∈ src, CondP brokerIds o →
      ∃ row ∈ (todo.foldl (reconcileMarkStep brokerIds) (stacc, n)).1.orders,
        row.order_id = o.order_id ∧ row.broker_order_id = o.broker_order_id ∧
        row.status = (if 0 < o.filled_quantity then OrderStatus.filled
          else OrderStatus.canceled)) := by
  intro todo
  induction todo with
  | nil =>
    intro stacc n _ _ hA hB
    refine ⟨rfl, fun row hm => ?_, fun o ho hc => ?_⟩
    · rcases hA row hm with h | h
      · exact h
      · simp at h
    · rcases hB o ho hc with ⟨⟨row, hm, hprops⟩, _⟩ | h
      · exact ⟨row, hm, hprops⟩
      · simp at h
  | cons t rest ih =>
    intro stacc n htodo hex hA hB
    obtain ⟨htodo_head, htodo_rest⟩ := List.pairwise_cons.mp htodo
    simp only [List.foldl_cons]
    obtain ⟨hmid, hmbk, hmstat, hmterm⟩ := reconcileMarkMissing_fields t
    by_cases hg : pyStrTruthy t.broker_order_id = true ∧
        ¬ brokerIds.contains ((t.broker_order_id).getD "") = true
    · have hstep : reconcileMarkStep brokerIds (stacc, n) t
          = (stacc.updateOrder (reconcileMarkMissing t), n + 1) := by
        unfold reconcileMarkStep
        rw [if_pos hg]
      rw [hstep]
      have hexid : ∀ (idv : String),
          (∃ row ∈ stacc.orders, row.order_id = idv) →
          ∃ row ∈ (stacc.updateOrder (reconcileMarkMissing t)).orders,
            row.order_id = idv := by
        intro idv hrow
        obtain ⟨row, hm, hid⟩ := hrow
        have hmm : idv ∈ (stacc.updateOrder (reconcileMarkMissing t)).orders.map
            (fun x => x.order_id) := by
          rw [updateOrder_ids]
          exact List.mem_map.mpr ⟨row, hm, hid⟩
        obtain ⟨row', hm', hid'⟩ := List.mem_map.mp hmm
        exact ⟨row', hm', hid'⟩
      have hres := ih _ (n + 1) htodo_rest
        (fun t' ht' => hexid t'.order_id (hex t' (List.mem_cons_of_mem _ ht')))
        ?_ ?_
      · exact ⟨by rw [hres.1, updateOrder_ids], hres.2.1, hres.2.2⟩
      · -- resolved-or-scheduled after the update
        intro row hm
        rcases mem_updateOrder hm with he | ⟨hold, hne⟩
        · subst he
          exact Or.inl (fun habs _ => absurd (hmterm ▸ habs) (by simp))
        · rcases hA row hold with h | h
          · exact Or.inl h
          · rcases List.mem_cons.mp h with h | h
            · exact absurd (by rw [h, hmid]) hne
            · exact Or.inr h
      · -- marked-or-scheduled after the update
        intro o ho hc
        rcases hB o ho hc with ⟨⟨row, hm, hid, hbk, hstat⟩, hnotin⟩ | hin
        · have hne : o.order_id ≠ t.order_id := fun he =>
            hnotin (he ▸ List.mem_map.mpr ⟨t, List.mem_cons_self _ _, rfl⟩)
          refine Or.inl ⟨⟨row, mem_updateOrder_of_ne hm ?_, hid, hbk, hstat⟩, ?_⟩
          · rw [hmid, hid]; exact hne
          · intro hmem
            exact hnotin (List.mem_map.mp hmem |>.elim
              (fun t' ht' => List.mem_map.mpr ⟨t', List.mem_cons_of_mem _ ht'.1, ht'.2⟩))
        · rcases List.mem_cons.mp hin with he | hin
          · subst he
            refine Or.inl ⟨⟨reconcileMarkMissing o,
              mem_updateOrder_target
                (by rw [hmid]; exact hex o (List.mem_cons_self _ _)),
              hmid, hmbk, hmstat⟩, ?_⟩
            intro hmem
            obtain ⟨t', ht', hte⟩ := List.mem_map.mp hmem
            exact htodo_head t' ht' hte.symm
          · exact Or.inr hin
    · have hstep : reconcileMarkStep brokerIds (stacc, n) t = (stacc, n) := by
        unfold reconcileMarkStep
        rw [if_neg hg]
      rw [hstep]
      refine ih stacc n htodo_rest
        (fun t' ht' => hex t' (List.mem_cons_of_mem _ ht')) ?_ ?_
      · intro row hm
        rcases hA row hm with h | h
        · exact Or.inl h
        · rcases List.mem_cons.mp h with he | h
          · subst he
            refine Or.inl (fun _ htr => ?_)
            by_cases hcont : brokerIds.contains ((row.broker_order_id).getD "") = true
            · exact hcont
            · exact absurd ⟨htr, hcont⟩ hg
          · exact Or.inr h
      · intro o ho hc
        rcases hB o ho hc with ⟨hrow, hnotin⟩ | hin
        · exact Or.inl ⟨hrow, fun hmem =>
            hnotin (List.mem_map.mp hmem |>.elim
              (fun t' ht' => List.mem_map.mpr ⟨t', List.mem_cons_of_mem _ ht'.1, ht'.2⟩))⟩
        · rcases List.mem_cons.mp hin with he | hin
          · exfalso
            subst he
            exact hg ⟨hc.2.1, by rw [hc.2.2]; simp⟩
          · exact Or.inr hin

/-- Invariant of the second reconciliation pass: every row stays resolved,
and rows whose broker id is absent from the broker set survive unchanged. -/
theorem reconcileSync_fold (brokerIds : List String) :
    ∀ (todo : List BrokerOpenOrder) (stacc : Store) (n : ℕ),
    (∀ bo ∈ todo, brokerIds.contains bo.broker_order_id = true) →
    stacc.orders.Pairwise (fun a b => a.order_id ≠ b.order_id) →
    (∀ row ∈ stacc.orders, ResolvedP brokerIds row) →
    (∀ row ∈ (todo.foldl reconcileSyncStep (stacc, n)).1.orders,
      ResolvedP brokerIds row) ∧
    (∀ row ∈ stacc.orders, pyStrTruthy row.broker_order_id = true →
      brokerIds.contains ((row.broker_order_id).getD "") = false →
      row ∈ (todo.foldl reconcileSyncStep (stacc, n)).1.orders) := by
  intro todo
  induction todo with
  | nil =>
    intro stacc n _ _ hA
    exact ⟨hA, fun row hm _ _ => hm⟩
  | cons bo rest ih =>
    intro stacc n htodo hP hA
    have htodo' : ∀ b ∈ rest, brokerIds.contains b.broker_order_id = true :=
      fun b hb => htodo b (List.mem_cons_of_mem _ hb)
    have hbo : brokerIds.contains bo.broker_order_id = true :=
      htodo bo (List.mem_cons_self _ _)
    simp only [List.foldl_cons]
    cases hlook : stacc.getOrderByBrokerId bo.broker_order_id with
    | none =>
      have hstep : reconcileSyncStep (stacc, n) bo = (stacc, n) := by
        unfold reconcileSyncStep
        rw [hlook]
      rw [hstep]
      exact ih stacc n htodo' hP hA
    | some localRow =>
      obtain ⟨hlm, hlbk⟩ := getOrderByBrokerId_props hlook
      by_cases hne : bo.filled_quantity ≠ localRow.filled_quantity
      · have hstep : reconcileSyncStep (stacc, n) bo
            = (stacc.updateOrder { localRow with filled_quantity := bo.filled_quantity },
               n + 1) := by
          unfold reconcileSyncStep
          rw [hlook]
          dsimp only
          rw [if_pos hne]
        rw [hstep]
        have hP' : (stacc.updateOrder
            { localRow with filled_quantity := bo.filled_quantity }).orders.Pairwise
            (fun a b => a.order_id ≠ b.order_id) := by
          have h1 := List.pairwise_map.mpr
            (hP.imp (fun {a b} hab => hab))
          have h2 := updateOrder_ids stacc { localRow with filled_quantity := bo.filled_quantity }
          exact List.pairwise_map.mp (h2 ▸ h1)
        have hA' : ∀ row ∈ (stacc.updateOrder
            { localRow with filled_quantity := bo.filled_quantity }).orders,
            ResolvedP brokerIds row := by
          intro row hm
          rcases mem_updateOrder hm with he | ⟨hold, _⟩
          · subst he
            exact hA localRow hlm
          · exact hA row hold
        obtain ⟨ihA, ihS⟩ := ih _ (n + 1) htodo' hP' hA'
        refine ⟨ihA, fun row hm htr hmiss => ?_⟩
        have hneid : row.order_id ≠ localRow.order_id := by
          intro hid
          have heq := same_id_eq hP hm hlm hid
          rw [heq, hlbk] at hmiss
          simp only [pyStrTruthy] at htr
          rw [heq, hlbk] at htr
          simp only [Option.getD_some] at hmiss
          rw [hbo] at hmiss
          exact absurd hmiss (by simp)
        exact ihS row (mem_updateOrder_of_ne hm hneid) htr hmiss
      · have hstep : reconcileSyncStep (stacc, n) bo = (stacc, n) := by
          unfold reconcileSyncStep
          rw [hlook]
          dsimp only
          rw [if_neg hne]
        rw [hstep]
        exact ih stacc n htodo' hP hA

/-- The order of the C5 counterexample: persisted `PENDING_NEW`, never
submitted, so its `broker_order_id` is NULL. -/
def c5order : Order :=
  { order_id := "ORD-C5", signal_id := "SIG-C5", symbol := "X", side := "BUY"
    order_type := "MARKET", quantity := 5 }

/-- Counterexample to C5 as stated: a reconciliation that returns
`success=true` leaves a never-submitted local order (broker_order_id NULL)
non-terminal and without any broker counterpart — the first pass guards on
`if broker_id and ...`, skipping NULL broker ids entirely. -/
theorem reconcile_skips_unsubmitted :
    (reconcile ⟨[c5order], []⟩ ⟨{}, {}⟩ true [] { total_equity := 0, available_cash := 0 } [] "RUN-1").1.success = true ∧
    (reconcile ⟨[c5order], []⟩ ⟨{}, {}⟩ true [] { total_equity := 0, available_cash := 0 } [] "RUN-1").2.1.orders
      = [c5order] ∧
    c5order.status.isTerminal = false ∧
    c5order.broker_order_id = none := by
  exact ⟨rfl, rfl, rfl, rfl⟩

/-- C5 amended.  After a reconciliation that returns `success=true`, every
surviving non-terminal local order **with a truthy broker_order_id** has a
matching broker open order; and every local non-terminal order whose truthy
broker id is absent from the broker set has been marked `FILLED` when
`filled_quantity > 0` and `CANCELED` otherwise.  Orders never submitted
(`broker_order_id` NULL or empty) are skipped and may remain non-terminal
with no broker counterpart. -/
theorem reconciler_nonterminal_amended
    (st : Store) (ts : TrackerState) (brokerPositions : List BrokerPosition)
    (balance : Balance) (brokerOrders : List BrokerOpenOrder) (runId : String)
    (hwf : st.orders.Pairwise (fun a b => a.order_id ≠ b.order_id)) :
    (reconcile st ts true brokerPositions balance brokerOrders runId).1.success = true ∧
    (∀ row ∈ (reconcile st ts true brokerPositions balance brokerOrders runId).2.1.orders,
      row.status.isTerminal = false → pyStrTruthy row.broker_order_id = true →
      (brokerOrders.map (fun o => o.broker_order_id)).contains
        ((row.broker_order_id).getD "") = true) ∧
    (∀ o ∈ st.orders, o.status.isTerminal = false →
      pyStrTruthy o.broker_order_id = true →
      (brokerOrders.map (fun o => o.broker_order_id)).contains
        ((o.broker_order_id).getD "") = false →
      ∃ row ∈ (reconcile st ts true brokerPositions balance brokerOrders runId).2.1.orders,
        row.order_id = o.order_id ∧
        row.status = (if 0 < o.filled_quantity then OrderStatus.filled
          else OrderStatus.canceled)) := by
  have hstore : (reconcile st ts true brokerPositions balance brokerOrders runId).2.1
      = (brokerOrders.foldl reconcileSyncStep
          ((st.getOpenOrders.foldl
            (reconcileMarkStep (brokerOrders.map (fun o => o.broker_order_id)))
            (st, 0)).1, 0)).1 := rfl
  obtain ⟨hids1, hA1, hB1⟩ :=
    reconcileMark_fold (brokerOrders.map (fun o => o.broker_order_id)) st.orders
      st.getOpenOrders st 0
      (hwf.filter _)
      (fun t ht => ⟨t, List.mem_of_mem_filter ht, rfl⟩)
      (by
        intro row hm
        by_cases hterm : row.status.isTerminal = true
        · exact Or.inl (fun habs _ => absurd (hterm ▸ habs) (by simp))
        · refine Or.inr (List.mem_filter.mpr ⟨hm, ?_⟩)
          simp [hterm])
      (by
        intro o ho hc
        refine Or.inr (List.mem_filter.mpr ⟨ho, ?_⟩)
        simp [hc.1])
  have hP1 : ((st.getOpenOrders.foldl
      (reconcileMarkStep (brokerOrders.map (fun o => o.broker_order_id)))
      (st, 0)).1.orders).Pairwise (fun a b => a.order_id ≠ b.order_id) := by
    have h1 := List.pairwise_map.mpr (hwf.imp (fun {a b} hab => hab))
    exact List.pairwise_map.mp (hids1 ▸ h1)
  obtain ⟨hA2, hsurv⟩ :=
    reconcileSync_fold (brokerOrders.map (fun o => o.broker_order_id))
      brokerOrders _ 0
      (fun bo hbo => by
        simpa using List.mem_map_of_mem (fun o => o.broker_order_id) hbo)
      hP1 hA1
  refine ⟨rfl, ?_, ?_⟩
  · intro row hm htr hbk
    rw [hstore] at hm
    exact hA2 row hm htr hbk
  · intro o ho hterm htr hmiss
    obtain ⟨row, hm1, hid, hbk, hstat⟩ := hB1 o ho ⟨hterm, htr, hmiss⟩
    refine ⟨row, ?_, hid, hstat⟩
    rw [hstore]
    exact hsurv row hm1 (by rw [hbk]; exact htr) (by rw [hbk]; exact hmiss)

/-- The order of the C5 witness: submitted to the broker as `B1`, never
filled. -/
def c5worder : Order :=
  { order_id := "ORD-C5W", signal_id := "SIG-C5W", symbol := "X", side := "BUY"
    order_type := "MARKET", quantity := 5, broker_order_id := some "B1"
    status := .submitted }

/-- Witness for C5 amended: reconciliation against an empty broker
open-order set marks the submitted, unfilled order `CANCELED` (the spec's
scenario 6). -/
theorem reconciler_nonterminal_amended_witness :
    ([c5worder].Pairwise (fun a b => a.order_id ≠ b.order_id)) ∧
    (∃ row ∈ (reconcile ⟨[c5worder], []⟩ ⟨{}, {}⟩ true [] { total_equity := 0, available_cash := 0 } [] "RUN-W").2.1.orders,
      row.order_id = c5worder.order_id ∧
      row.status = (if 0 < c5worder.filled_quantity then OrderStatus.filled
        else OrderStatus.canceled)) := by
  have hwf : [c5worder].Pairwise (fun a b => a.order_id ≠ b.order_id) := by simp
  refine ⟨hwf, ?_⟩
  exact (reconciler_nonterminal_amended ⟨[c5worder], []⟩ ⟨{}, {}⟩ []
    { total_equity := 0, available_cash := 0 } [] "RUN-W"
    hwf).2.2 c5worder (by simp) rfl rfl rfl

/-! ## Idempotent submission -/

/-- Suffixing the random token makes a strictly longer, hence different,
order id. -/
theorem key_ne_suffix (k t : String) : k ++ "-" ++ t ≠ k := by
  intro h
  have hl := congrArg String.length h
  simp only [String.length_append] at hl
  have hd : ("-" : String).length = 1 := rfl
  rw [hd] at hl
  omega

/-- A successful search survives appending rows. -/
theorem find?_append_some {α} {l₁ l₂ : List α} {p : α → Bool} {a : α}
    (h : l₁.find? p = some a) : (l₁ ++ l₂).find? p = some a := by
  induction l₁ with
  | nil => simp at h
  | cons x rest ih =>
    by_cases hp : p x
    · rw [List.find?_cons_of_pos _ hp] at h
      rw [List.cons_append, List.find?_cons_of_pos _ hp]
      exact h
    · rw [List.find?_cons_of_neg _ hp] at h
      rw [List.cons_append, List.find?_cons_of_neg _ hp]
      exact ih h

/-- A failed search defers to the appended rows. -/
theorem find?_append_none {α} {l₁ l₂ : List α} {p : α → Bool}
    (h : l₁.find? p = none) : (l₁ ++ l₂).find? p = l₂.find? p := by
  induction l₁ with
  | nil => rfl
  | cons x rest ih =>
    by_cases hp : p x
    · rw [List.find?_cons_of_pos _ hp] at h
      exact absurd h (by simp)
    · rw [List.find?_cons_of_neg _ hp] at h
      rw [List.cons_append, List.find?_cons_of_neg _ hp]
      exact ih h

/-- Updating an order of a different id does not change which row a
`get_order` lookup finds. -/
theorem find?_map_update_ne {l : List Order} {o' : Order} {K : String}
    (hne : K ≠ o'.order_id) :
    (l.map (fun x => if x.order_id = o'.order_id then o' else x)).find?
      (fun o => o.order_id = K) = l.find? (fun o => o.order_id = K) := by
  induction l with
  | nil => rfl
  | cons x rest ih =>
    simp only [List.map_cons]
    by_cases hx : x.order_id = o'.order_id
    · rw [if_pos hx]
      rw [List.find?_cons_of_neg _ (by simp [Ne.symm hne]),
        List.find?_cons_of_neg _ (by simp [hx, Ne.symm hne])]
      exact ih
    · rw [if_neg hx]
      by_cases hxk : x.order_id = K
      · rw [List.find?_cons_of_pos _ (by simp [hxk]),
          List.find?_cons_of_pos _ (by simp [hxk])]
      · rw [List.find?_cons_of_neg _ (by simp [hxk]),
          List.find?_cons_of_neg _ (by simp [hxk])]
        exact ih

/-- Updating the order a lookup finds makes the lookup return the update. -/
theorem find?_map_update_self {l : List Order} {o' x : Order} {K : String}
    (h : l.find? (fun o => o.order_id = K) = some x) (hK : o'.order_id = K) :
    (l.map (fun y => if y.order_id = o'.order_id then o' else y)).find?
      (fun o => o.order_id = K) = some o' := by
  induction l with
  | nil => simp at h
  | cons y rest ih =>
    simp only [List.map_cons]
    by_cases hy : y.order_id = K
    · rw [if_pos (by rw [hy, hK])]
      rw [List.find?_cons_of_pos _ (by simp [hK])]
    · rw [List.find?_cons_of_neg _ (by simp [hy])] at h
      rw [if_neg (by rw [hK]; exact hy)]
      rw [List.find?_cons_of_neg _ (by simp [hy])]
      exact ih h

/-- With pairwise-distinct ids there is at most one row per id, terminal or
not. -/
theorem countP_id_le_one {l : List Order} (K : String)
    (hwf : l.Pairwise (fun a b => a.order_id ≠ b.order_id)) :
    l.countP (fun o => o.order_id = K && !o.status.isTerminal) ≤ 1 := by
  induction l with
  | nil => simp
  | cons x rest ih =>
    obtain ⟨hx, hrest⟩ := List.pairwise_cons.mp hwf
    rw [List.countP_cons]
    by_cases hid : x.order_id = K
    · have hz : rest.countP (fun o => o.order_id = K && !o.status.isTerminal) = 0 := by
        rw [List.countP_eq_zero]
        intro a ha
        simp only [Bool.and_eq_true, decide_eq_true_eq, Bool.not_eq_true', not_and]
        intro haK
        exact absurd (by rw [hid, haK]) (hx a ha)
      rw [hz]
      split <;> omega
    · have hfalse : (decide (x.order_id = K) && !x.status.isTerminal) = false := by
        simp [hid]
      rw [hfalse]
      simpa using ih hrest

/-- Updating a row under a different id does not change the non-terminal
count at this id. -/
theorem countP_map_update_ne {l : List Order} {o' : Order} {K : String}
    (hne : o'.order_id ≠ K) :
    (l.map (fun x => if x.order_id = o'.order_id then o' else x)).countP
      (fun o => o.order_id = K && !o.status.isTerminal)
    = l.countP (fun o => o.order_id = K && !o.status.isTerminal) := by
  induction l with
  | nil => rfl
  | cons x rest ih =>
    simp only [List.map_cons, List.countP_cons]
    rw [ih]
    congr 1
    by_cases hx : x.order_id = o'.order_id
    · rw [if_pos hx]
      have h1 : (decide (o'.order_id = K) && !o'.status.isTerminal) = false := by
        simp [hne]
      have h2 : (decide (x.order_id = K) && !x.status.isTerminal) = false := by
        simp [hx, hne]
      rw [h1, h2]
    · rw [if_neg hx]

/-- When the row a lookup finds is terminal and ids are distinct, the
non-terminal count at that id is zero. -/
theorem countP_id_zero_of_terminal {l : List Order} {K : String} {ex : Order}
    (hwf : l.Pairwise (fun a b => a.order_id ≠ b.order_id))
    (hfind : l.find? (fun o => o.order_id = K) = some ex)
    (hterm : ex.status.isTerminal = true) :
    l.countP (fun o => o.order_id = K && !o.status.isTerminal) = 0 := by
  rw [List.countP_eq_zero]
  intro a ha
  simp only [Bool.and_eq_true, decide_eq_true_eq, Bool.not_eq_true', not_and]
  intro haK
  have hexm := List.mem_of_find?_eq_some hfind
  have hexid : ex.order_id = K := by simpa using List.find?_some hfind
  have hae : a = ex := same_id_eq hwf ha hexm (by rw [haK, hexid])
  rw [hae, hterm]
  simp

/-- What `submitNewOrder` produces: a `place_order` attempt on a fresh
`PENDING_NEW` order persisted under `key`, ending `SUBMITTED` or `REJECTED`,
with the store transformed by the insert followed by the update. -/
theorem submitNewOrder_spec (st : Store) (s : Signal) (q : ℤ) (price : Option ℚ)
    (key : String) (pr : BrokerPlaceResult) :
    ∃ o0 o', submitNewOrder st s q price key pr
        = .ok ⟨some o', (st.saveOrder o0).updateOrder o', true⟩ ∧
      o0.order_id = key ∧ o0.status = .pendingNew ∧
      o'.order_id = key ∧ (o'.status = .submitted ∨ o'.status = .rejected) := by
  cases pr with
  | accepted bid =>
    refine ⟨_, _, rfl, rfl, rfl, rfl, Or.inl rfl⟩
  | orderRejected e =>
    refine ⟨_, _, rfl, rfl, rfl, rfl, Or.inr rfl⟩
  | brokerError e =>
    refine ⟨_, _, rfl, rfl, rfl, rfl, Or.inr rfl⟩

/-- `process_approved_signal` unfolded for an unpaused OMS and a non-HOLD
signal: lookup, in-flight short-circuit, terminal-retry, or fresh submit. -/
theorem processApprovedSignal_eq (st : Store) (s : Signal) (q : ℤ)
    (price : Option ℚ) (tok : String) (pr : BrokerPlaceResult)
    (hhold : s.action ≠ "HOLD") :
    processApprovedSignal st s q price false tok pr
      = match st.getOrder (generateIdempotencyKey s q) with
        | some existing =>
          if ¬ existing.isTerminal then .ok ⟨some existing, st, false⟩
          else submitNewOrder st s q price
            (generateIdempotencyKey s q ++ "-" ++ tok) pr
        | none => submitNewOrder st s q price (generateIdempotencyKey s q) pr := by
  unfold processApprovedSignal
  rw [if_neg (by simp), if_neg hhold]

/-- When no row bears the key, the insert-then-update pair appends exactly
the updated order. -/
theorem saveUpdate_none {st : Store} {o0 o' : Order} {key : String}
    (hnone : ∀ row ∈ st.orders, ¬ row.order_id = key)
    (h0 : o0.order_id = key) (h' : o'.order_id = key) :
    ((st.saveOrder o0).updateOrder o').orders = st.orders ++ [o'] := by
  unfold Store.saveOrder Store.updateOrder
  dsimp only
  rw [List.map_append]
  congr 1
  · conv_rhs => rw [← List.map_id st.orders]
    refine List.map_congr_left ?_
    intro x hx
    rw [if_neg (by rw [h']; exact hnone x hx)]
    rfl
  · simp [h0, h']

/-- The insert-then-update pair of a submit leaves lookups at an unrelated
id untouched. -/
theorem getOrder_saveUpdate_ne {st : Store} {o0 o' : Order} {key K : String}
    (h0 : o0.order_id = key) (h' : o'.order_id = key) (hne : K ≠ key) :
    ((st.saveOrder o0).updateOrder o').getOrder K = st.getOrder K := by
  unfold Store.saveOrder Store.updateOrder Store.getOrder
  dsimp only
  rw [find?_map_update_ne (by rw [h']; exact hne)]
  cases hc : st.orders.find? (fun o => decide (o.order_id = K)) with
  | some a => rw [find?_append_some hc]
  | none =>
    rw [find?_append_none hc,
      List.find?_cons_of_neg _ (by
        simp only [h0, decide_eq_true_eq]
        exact Ne.symm hne)]
    rfl

/-- The insert-then-update pair of a submit leaves the non-terminal count
at an unrelated id untouched. -/
theorem countP_saveUpdate_ne {st : Store} {o0 o' : Order} {key K : String}
    (h0 : o0.order_id = key) (h' : o'.order_id = key) (hne : K ≠ key) :
    ((st.saveOrder o0).updateOrder o').orders.countP
      (fun o => o.order_id = K && !o.status.isTerminal)
    = st.orders.countP (fun o => o.order_id = K && !o.status.isTerminal) := by
  unfold Store.saveOrder Store.updateOrder
  dsimp only
  rw [List.map_append, List.countP_append, countP_map_update_ne (by rw [h']; exact Ne.symm hne)]
  have hz : (([o0].map (fun x => if x.order_id = o'.order_id then o' else x)).countP
      (fun o => o.order_id = K && !o.status.isTerminal)) = 0 := by
    simp only [List.map_cons, List.map_nil, List.countP_cons, List.countP_nil]
    by_cases hx : o0.order_id = o'.order_id
    · rw [if_pos hx]
      simp [h', Ne.symm hne]
    · rw [if_neg hx]
      simp [h0, Ne.symm hne]
  rw [hz, Nat.add_zero]

/-- C1.  Idempotent submission: the order id is a deterministic function of
(signal_id, symbol, action, quantity, 60-second bucket); an existing
non-terminal order under that id is returned as-is with no store write and
no `place_order` call; an existing terminal order triggers a fresh attempt
under the token-suffixed id; and two submissions of the same signal in the
same bucket leave at most one non-terminal order under the shared id in the
store. -/
theorem idempotent_submission :
    (∀ (s1 s2 : Signal) (q : ℤ),
      s1.signal_id = s2.signal_id → s1.symbol = s2.symbol →
      s1.action = s2.action → s1.timestamp / 60 = s2.timestamp / 60 →
      generateIdempotencyKey s1 q = generateIdempotencyKey s2 q) ∧
    (∀ (st : Store) (s : Signal) (q : ℤ) (price : Option ℚ) (tok : String)
       (pr : BrokerPlaceResult) (ex : Order),
      s.action ≠ "HOLD" →
      st.getOrder (generateIdempotencyKey s q) = some ex →
      ex.status.isTerminal = false →
      processApprovedSignal st s q price false tok pr = .ok ⟨some ex, st, false⟩) ∧
    (∀ (st : Store) (s : Signal) (q : ℤ) (price : Option ℚ) (tok : String)
       (pr : BrokerPlaceResult) (ex : Order),
      s.action ≠ "HOLD" →
      st.getOrder (generateIdempotencyKey s q) = some ex →
      ex.status.isTerminal = true →
      ∃ res, processApprovedSignal st s q price false tok pr = .ok res ∧
        res.placeOrderCalled = true ∧
        ∃ o, res.returned = some o ∧
          o.order_id = generateIdempotencyKey s q ++ "-" ++ tok) ∧
    (∀ (st : Store) (s : Signal) (q : ℤ) (price₁ price₂ : Option ℚ)
       (tok₁ tok₂ : String) (pr₁ pr₂ : BrokerPlaceResult)
       (res₁ res₂ : ProcessResult),
      s.action ≠ "HOLD" →
      st.orders.Pairwise (fun a b => a.order_id ≠ b.order_id) →
      processApprovedSignal st s q price₁ false tok₁ pr₁ = .ok res₁ →
      processApprovedSignal res₁.store s q price₂ false tok₂ pr₂ = .ok res₂ →
      res₂.store.orders.countP
        (fun o => o.order_id = generateIdempotencyKey s q && !o.status.isTerminal)
        ≤ 1) := by
  refine ⟨?_, ?_, ?_, ?_⟩
  · intro s1 s2 q h1 h2 h3 h4
    unfold generateIdempotencyKey
    rw [h1, h2, h3, h4]
  · intro st s q price tok pr ex hhold hfind hterm
    rw [processApprovedSignal_eq st s q price tok pr hhold, hfind]
    dsimp only
    rw [if_pos (by simp [Order.isTerminal, hterm])]
  · intro st s q price tok pr ex hhold hfind hterm
    rw [processApprovedSignal_eq st s q price tok pr hhold, hfind]
    dsimp only
    rw [if_neg (by simp [Order.isTerminal, hterm])]
    obtain ⟨o0, o', heq, _, _, hid', _⟩ :=
      submitNewOrder_spec st s q price (generateIdempotencyKey s q ++ "-" ++ tok) pr
    exact ⟨_, heq, rfl, o', rfl, hid'⟩
  · intro st s q price₁ price₂ tok₁ tok₂ pr₁ pr₂ res₁ res₂ hhold hwf h1 h2
    rw [processApprovedSignal_eq st s q price₁ tok₁ pr₁ hhold] at h1
    cases hfind : st.getOrder (generateIdempotencyKey s q) with
    | some ex =>
      rw [hfind] at h1
      dsimp only at h1
      by_cases hterm : ex.status.isTerminal = true
      · rw [if_neg (by simp [Order.isTerminal, hterm])] at h1
        obtain ⟨o0, o', heq, h00, _, hid', _⟩ :=
          submitNewOrder_spec st s q price₁ (generateIdempotencyKey s q ++ "-" ++ tok₁) pr₁
        rw [heq] at h1
        injection h1 with h1
        subst h1
        have hne₁ : generateIdempotencyKey s q
            ≠ generateIdempotencyKey s q ++ "-" ++ tok₁ :=
          fun he => key_ne_suffix _ tok₁ he.symm
        have hfind₁ : ((st.saveOrder o0).updateOrder o').getOrder
            (generateIdempotencyKey s q) = some ex := by
          rw [getOrder_saveUpdate_ne h00 hid' hne₁]
          exact hfind
        rw [processApprovedSignal_eq _ s q price₂ tok₂ pr₂ hhold] at h2
        dsimp only at h2
        rw [hfind₁] at h2
        dsimp only at h2
        rw [if_neg (by simp [Order.isTerminal, hterm])] at h2
        obtain ⟨o0₂, o₂', heq₂, h00₂, _, hid₂', _⟩ :=
          submitNewOrder_spec ((st.saveOrder o0).updateOrder o') s q price₂
            (generateIdempotencyKey s q ++ "-" ++ tok₂) pr₂
        rw [heq₂] at h2
        injection h2 with h2
        subst h2
        dsimp only
        rw [countP_saveUpdate_ne h00₂ hid₂' (fun he => key_ne_suffix _ tok₂ he.symm)]
        rw [countP_saveUpdate_ne h00 hid' hne₁]
        rw [countP_id_zero_of_terminal hwf hfind hterm]
        exact Nat.zero_le 1
      · rw [if_pos (by simp [Order.isTerminal, hterm])] at h1
        injection h1 with h1
        subst h1
        rw [processApprovedSignal_eq _ s q price₂ tok₂ pr₂ hhold] at h2
        dsimp only at h2
        rw [hfind] at h2
        dsimp only at h2
        rw [if_pos (by simp [Order.isTerminal, hterm])] at h2
        injection h2 with h2
        subst h2
        dsimp only
        exact countP_id_le_one _ hwf
    | none =>
      rw [hfind] at h1
      dsimp only at h1
      obtain ⟨o0, o', heq, h00, _, hid', _⟩ :=
        submitNewOrder_spec st s q price₁ (generateIdempotencyKey s q) pr₁
      rw [heq] at h1
      injection h1 with h1
      subst h1
      have hrows : ∀ row ∈ st.orders, ¬ row.order_id = generateIdempotencyKey s q := by
        intro row hm
        simpa using List.find?_eq_none.mp hfind row hm
      have hS₁ : ((st.saveOrder o0).updateOrder o').orders
          = st.orders ++ [o'] := saveUpdate_none hrows h00 hid'
      have hcount_st : st.orders.countP
          (fun o => o.order_id = generateIdempotencyKey s q
            && !o.status.isTerminal) = 0 := by
        rw [List.countP_eq_zero]
        intro a ha
        simp only [Bool.and_eq_true, decide_eq_true_eq, Bool.not_eq_true', not_and]
        intro haK
        exact absurd haK (hrows a ha)
      have hfind₁ : ((st.saveOrder o0).updateOrder o').getOrder
          (generateIdempotencyKey s q) = some o' := by
        show (((st.saveOrder o0).updateOrder o').orders).find? _ = some o'
        rw [hS₁, find?_append_none hfind, List.find?_cons_of_pos _ (by simp [hid'])]
      rw [processApprovedSignal_eq _ s q price₂ tok₂ pr₂ hhold] at h2
      dsimp only at h2
      rw [hfind₁] at h2
      dsimp only at h2
      by_cases hterm' : o'.status.isTerminal = true
      · rw [if_neg (by simp [Order.isTerminal, hterm'])] at h2
        obtain ⟨o0₂, o₂', heq₂, h00₂, _, hid₂', _⟩ :=
          submitNewOrder_spec ((st.saveOrder o0).updateOrder o') s q price₂
            (generateIdempotencyKey s q ++ "-" ++ tok₂) pr₂
        rw [heq₂] at h2
        injection h2 with h2
        subst h2
        dsimp only
        rw [countP_saveUpdate_ne h00₂ hid₂' (fun he => key_ne_suffix _ tok₂ he.symm)]
        rw [hS₁, List.countP_append, hcount_st]
        have hz : List.countP
            (fun o => o.order_id = generateIdempotencyKey s q
              && !o.status.isTerminal) [o'] = 0 := by
          simp [hterm']
        rw [hz]
        exact Nat.zero_le 1
      · rw [if_pos (by simp [Order.isTerminal, hterm'])] at h2
        injection h2 with h2
        subst h2
        dsimp only
        rw [hS₁, List.countP_append, hcount_st]
        simpa using List.countP_le_length
          (fun o => o.order_id = generateIdempotencyKey s q && !o.status.isTerminal)
          (l := [o'])

/-- A concrete approved BUY signal. -/
def c1signal : Signal :=
  { signal_id := "SIG-1", strategy_name := "ma_crossover", symbol := "AAPL",
    action := "BUY", confidence := 9 / 10, reason := "golden cross",
    timestamp := 120 }

/-- A non-terminal order already stored under the signal's idempotency key. -/
def c1existing : Order :=
  { order_id := generateIdempotencyKey c1signal 10, signal_id := "SIG-1",
    symbol := "AAPL", side := "BUY", order_type := "MARKET", quantity := 10,
    status := .submitted }

/-- A store holding exactly that order. -/
def c1store : Store := { orders := [c1existing], fills := [] }

/-- Witness for C1: resubmitting `c1signal` against the store that already
holds a non-terminal order under its key returns that order unchanged,
writes nothing, and never reaches `place_order`. -/
theorem idempotent_submission_witness :
    processApprovedSignal c1store c1signal 10 none false "tok"
        (.accepted "B-1")
      = .ok ⟨some c1existing, c1store, false⟩ :=
  idempotent_submission.2.1 c1store c1signal 10 none "tok"
    (.accepted "B-1") c1existing (by decide) (by rfl) (by rfl)

end Krader
